import Mathlib

/-!
# Word-guessing game (`script.js`)

A shallow embedding of the game logic of `script.js` and theorems about it.

The script keeps its state in five global variables and in the properties of
eight DOM elements.  They are the fields of `Game` here, except the variable
`maxIncorrectGuesses`, which is never assigned and is a constant.  A JavaScript string is a
Lean `String` (the sequence of its code points).  Every word and every message
of the script lies in the Basic Multilingual Plane except the two emoji, which
are only ever copied, so code points and UTF-16 code units agree wherever the
script looks inside a string.
-/

namespace WordGuessing

/-! ## Data -/

/-- An element of `wordList`: `{ word: ..., hint: ... }`. -/
structure WordEntry where
  word : String
  hint : String
deriving DecidableEq

/-- The constant `wordList` (script.js, lines 2-8). -/
def wordList : List WordEntry :=
  [ { word := "JAVASCRIPT", hint := "A scripting language for web pages" },
    { word := "PROGRAMMING", hint := "The process of writing computer code" },
    { word := "WEBSITE", hint := "A collection of related web pages" },
    { word := "DEVELOPER", hint := "A person who builds applications" },
    { word := "ALGORITHM", hint := "A set of rules to be followed in calculations" } ]

/-- The variable `maxIncorrectGuesses` (line 14); the script never assigns it again. -/
def maxIncorrectGuesses : Nat := 6

/-- A call the script makes to one of its two reporting functions.  Calls are
recorded in `Game.calls` so that theorems can speak about a message that a later
call overwrites. -/
inductive Call where
  | showMessage (text type : String)
  | endGame (won : Bool)
deriving DecidableEq

/-- The state of the page: the global variables of lines 11-15 (except the constant
`maxIncorrectGuesses`) and the properties of the DOM elements of lines 18-25 that the
script reads or writes. -/
structure Game where
  /-- Global `currentWord`. -/
  currentWord : String
  /-- Global `currentHint`. -/
  currentHint : String
  /-- Global `guessedLetters`, an array of strings. -/
  guessedLetters : List String
  /-- Global `incorrectGuesses`. -/
  incorrectGuesses : Nat
  /-- Property `wordDisplay.textContent`. -/
  wordDisplayText : String
  /-- Property `hintSpan.textContent`. -/
  hintText : String
  /-- Property `guessInput.value`. -/
  guessInputValue : String
  /-- Property `guessInput.disabled`. -/
  guessInputDisabled : Bool
  /-- Property `guessButton.disabled`. -/
  guessButtonDisabled : Bool
  /-- Property `messageElement.textContent`. -/
  messageText : String
  /-- Property `messageElement.className`. -/
  messageClass : String
  /-- The number assigned to `guessesLeftSpan.textContent` (the DOM keeps its decimal form). -/
  guessesLeft : Int
  /-- Property `guessedLettersSpan.textContent`. -/
  guessedLettersText : String
  /-- Property `resetButton.style.display`. -/
  resetButtonDisplay : String
  /-- Ghost field: the calls of `showMessage` and `endGame` made by the latest run of a
  handler (`initGame` or `handleGuess`), in order. -/
  calls : List Call
deriving DecidableEq

/-! ## Built-in string operations the script uses -/

/-- Upper-case form of one code point, as far as `String.prototype.toUpperCase` can
produce a letter of `A-Z`: the letters `a-z`, and the two other code points whose
upper-case form is a single ASCII letter, U+0131 (dotless i, to `I`) and U+017F (long s,
to `S`).  Every other code point is kept as it is: its real upper-case form (several
characters for some, such as `SS` for U+00DF) is never a single character of `A-Z`, and
the script uses the result only after the test `/^[A-Z]$/` has passed. -/
def upperCodePoint (c : Char) : Char :=
  if 'a' ≤ c ∧ c ≤ 'z' then Char.ofNat (c.toNat - 32)
  else if c = Char.ofNat 0x131 then 'I'
  else if c = Char.ofNat 0x17F then 'S'
  else c

/-- The method `toUpperCase` of a string (see `upperCodePoint` for the extent of the model). -/
def toUpperCase (s : String) : String :=
  String.mk (s.toList.map upperCodePoint)

/-- The test `/^[A-Z]$/.test(guess)`: the string is exactly one character of `A-Z`
(without the `m` flag, `$` matches at the very end only). -/
def matchesAZ (guess : String) : Bool :=
  match guess.toList with
  | [c] => decide ('A' ≤ c ∧ c ≤ 'Z')
  | _ => false

/-- The method `includes` of a string: `search` occurs in `s` as a substring. -/
def includes (s search : String) : Bool :=
  s.toList.tails.any (fun t => search.toList.isPrefixOf t)

/-- The expression `s.split('').join(' ')`: the characters of `s` separated by spaces. -/
def spaced (s : String) : String :=
  String.mk (s.toList.intersperse ' ')

/-! ## The functions of the script -/

/-- Function `showMessage(text, type)` (lines 120-123). -/
def showMessage (text type : String) (s : Game) : Game :=
  { s with
    messageText := text
    messageClass := "message " ++ type
    calls := s.calls ++ [Call.showMessage text type] }

/-- Function `endGame(won)` (lines 129-140). -/
def endGame (won : Bool) (s : Game) : Game :=
  let s := { s with
    guessInputDisabled := true
    guessButtonDisabled := true
    resetButtonDisplay := "block"
    calls := s.calls ++ [Call.endGame won] }
  if won then
    showMessage "🎉 Congratulations! You guessed the word!" "correct" s
  else
    let s := { s with wordDisplayText := spaced s.currentWord }
    showMessage ("😔 Game Over! The word was \"" ++ s.currentWord ++ "\".") "incorrect" s

/-- The loop of `updateDisplay` (lines 56-67): it returns the final values of the
local variables `displayWord` and `wordGuessed`. -/
def maskLoop (currentWord : String) (guessedLetters : List String) : String × Bool :=
  currentWord.toList.foldl
    (fun (acc : String × Bool) (letter : Char) =>
      if guessedLetters.contains (String.singleton letter) then
        (acc.1 ++ String.singleton letter, acc.2)
      else
        (acc.1 ++ "_", false))
    ("", true)

/-- The array `guessedLetters.filter(letter => !currentWord.includes(letter))` that
`updateDisplay` renders (lines 72-74). -/
def incorrectLetters (currentWord : String) (guessedLetters : List String) : List String :=
  guessedLetters.filter (fun letter => !includes currentWord letter)

/-- Function `updateDisplay()` (lines 55-82). -/
def updateDisplay (s : Game) : Game :=
  let (displayWord, wordGuessed) := maskLoop s.currentWord s.guessedLetters
  let s := { s with wordDisplayText := spaced displayWord }
  let s := { s with
    guessesLeft := (maxIncorrectGuesses : Int) - (s.incorrectGuesses : Int)
    guessedLettersText := ", ".intercalate (incorrectLetters s.currentWord s.guessedLetters) }
  if wordGuessed then
    endGame true s
  else if s.incorrectGuesses ≥ maxIncorrectGuesses then
    endGame false s
  else
    s

/-- Function `handleGuess()` (lines 87-113).  The ghost field `calls` starts empty. -/
def handleGuess (s : Game) : Game :=
  let guess := toUpperCase s.guessInputValue
  let s := { s with guessInputValue := "", calls := [] }
  if !matchesAZ guess then
    showMessage "Please enter a single valid letter (A-Z)." "warning" s
  else if s.guessedLetters.contains guess then
    showMessage ("You already guessed the letter \"" ++ guess ++ "\".") "warning" s
  else
    let s := { s with guessedLetters := s.guessedLetters ++ [guess] }
    let s :=
      if includes s.currentWord guess then
        showMessage ("Correct guess! The letter \"" ++ guess ++ "\" is in the word.") "correct" s
      else
        showMessage ("Incorrect guess. The letter \"" ++ guess ++ "\" is not in the word.")
          "incorrect" { s with incorrectGuesses := s.incorrectGuesses + 1 }
    updateDisplay s

/-- The value `Math.floor(random * wordList.length)` of line 43, for the value `random`
that `Math.random()` returned, taken as an exact rational; `randomIndexDouble` is the value
with the product rounded as the script computes it. -/
def randomIndex (random : ℚ) : Int :=
  ⌊random * (wordList.length : ℚ)⌋

/-- The element `wordList[i]` for a number `i`; `none` stands for `undefined`. -/
def wordListAt (i : Int) : Option WordEntry :=
  if 0 ≤ i then wordList[i.toNat]? else none

/-- Function `initGame()` (lines 30-50), for the value `random` that `Math.random()`
returns.  The result is `none` when `wordList[randomIndex]` is `undefined`, where the
script stops with a `TypeError`.  The call `guessInput.focus()` is left out: no other
line of the script depends on the focus.  The ghost field `calls` starts empty.  The
index is `randomIndex`, with an exact product; `initGameDouble` is the same function with
the product rounded, and it starts the same rounds. -/
def initGame (random : ℚ) (s : Game) : Option Game :=
  let s := { s with
    guessedLetters := []
    incorrectGuesses := 0
    messageText := ""
    messageClass := "message"
    resetButtonDisplay := "none"
    guessInputDisabled := false
    guessButtonDisabled := false
    guessInputValue := ""
    calls := [] }
  match wordListAt (randomIndex random) with
  | none => none
  | some entry =>
    let s := { s with currentWord := entry.word, currentHint := entry.hint }
    let s := { s with hintText := s.currentHint }
    some (updateDisplay s)

/-! ## Driving the script -/

/-- The player enters `input` in the guess field and `handleGuess` runs (by the button
or the Enter key, lines 145-152). -/
def enterGuess (input : String) (s : Game) : Game :=
  handleGuess { s with guessInputValue := input }

/-- The inputs of a list are entered one after the other. -/
def enterGuesses (inputs : List String) (s : Game) : Game :=
  inputs.foldl (fun s input => enterGuess input s) s

/-- The state of the page before the script has run: the initial values of the global
variables (lines 11-15) and an empty page. -/
def pageLoad : Game :=
  { currentWord := "", currentHint := "", guessedLetters := [], incorrectGuesses := 0,
    wordDisplayText := "", hintText := "", guessInputValue := "",
    guessInputDisabled := false, guessButtonDisabled := false,
    messageText := "", messageClass := "", guessesLeft := 0, guessedLettersText := "",
    resetButtonDisplay := "", calls := [] }

/-- The state in which `initGame` leaves the page when the entry it selects is `entry`
(lemma `initGame_eq_freshRound`). -/
def freshRound (entry : WordEntry) : Game :=
  updateDisplay
    { currentWord := entry.word, currentHint := entry.hint, guessedLetters := [],
      incorrectGuesses := 0, wordDisplayText := "", hintText := entry.hint,
      guessInputValue := "", guessInputDisabled := false, guessButtonDisabled := false,
      messageText := "", messageClass := "message", guessesLeft := 0,
      guessedLettersText := "", resetButtonDisplay := "none", calls := [] }

/-- The final value of the local variable `wordGuessed` of `updateDisplay` in state `s`. -/
def wordGuessed (s : Game) : Bool :=
  (maskLoop s.currentWord s.guessedLetters).2

/-- The final value of the local variable `displayWord` of `updateDisplay` in state `s`:
the masked word. -/
def displayWord (s : Game) : String :=
  (maskLoop s.currentWord s.guessedLetters).1

/-- The round has ended: `updateDisplay` would call `endGame` (lines 77-81). -/
def roundOver (s : Game) : Bool :=
  wordGuessed s || decide (s.incorrectGuesses ≥ maxIncorrectGuesses)

/-- The page shows the round as ended, as `endGame` leaves it (lines 130-132). -/
def markedEnded (s : Game) : Prop :=
  s.guessInputDisabled = true ∧ s.guessButtonDisabled = true ∧ s.resetButtonDisplay = "block"

/-- The guess field holds an input that `handleGuess` accepts: it passes the test of
line 92 and is not in `guessedLetters` (line 97). -/
def accepts (s : Game) (input : String) : Bool :=
  matchesAZ (toUpperCase input) && !s.guessedLetters.contains (toUpperCase input)

/-- The states of the page that the script can reach: `initGame` has run, then
`handleGuess` any number of times with any inputs. -/
def Reachable (s : Game) : Prop :=
  ∃ (random : ℚ) (s0 s1 : Game) (inputs : List String),
    initGame random s0 = some s1 ∧ s = enterGuesses inputs s1

/-- The character is a letter `A-Z` or `a-z`. -/
def isLetter (c : Char) : Bool :=
  decide (('A' ≤ c ∧ c ≤ 'Z') ∨ ('a' ≤ c ∧ c ≤ 'z'))

/-- The distinct guessed letters that do not occur in `currentWord`. -/
def wrongLetters (s : Game) : Finset String :=
  s.guessedLetters.toFinset.filter (fun letter => includes s.currentWord letter = false)

/-- The round that `initGame` starts when `Math.random()` returns `1/2`
(lemma `initGame_half`). -/
def websiteRound : Game :=
  freshRound { word := "WEBSITE", hint := "A collection of related web pages" }

/-- The facts that hold of every state the script reaches (lemma `inv_of_reachable`). -/
structure Inv (s : Game) : Prop where
  word : ∃ entry ∈ wordList, s.currentWord = entry.word ∧ s.currentHint = entry.hint
  nodup : s.guessedLetters.Nodup
  letters : ∀ g ∈ s.guessedLetters, matchesAZ g = true
  count : s.incorrectGuesses = (incorrectLetters s.currentWord s.guessedLetters).length
  input : s.guessInputDisabled = roundOver s
  button : s.guessButtonDisabled = roundOver s
  reset : s.resetButtonDisplay = if roundOver s then "block" else "none"

/-- Further facts that hold of every state the script reaches: what the page shows agrees
with the global variables (lemma `invDisplay_of_initGame`). -/
structure InvDisplay (s : Game) : Prop where
  left : s.guessesLeft = (maxIncorrectGuesses : Int) - (s.incorrectGuesses : Int)
  shown : s.guessedLettersText
    = ", ".intercalate (incorrectLetters s.currentWord s.guessedLetters)
  display : s.wordDisplayText =
    if wordGuessed s = false ∧ s.incorrectGuesses ≥ maxIncorrectGuesses then
      spaced s.currentWord
    else spaced (displayWord s)

/-- The argument of the latest call of `endGame` in a list of calls, and `prev` when the
list has no call of `endGame`. -/
def lastEndGame (prev : Option Bool) (calls : List Call) : Option Bool :=
  calls.foldl
    (fun acc call =>
      match call with
      | Call.endGame won => some won
      | Call.showMessage _ _ => acc)
    prev

/-- The argument of the latest call of `endGame` when the inputs of a list have been entered
one after the other from state `s`, where `prev` is that of the latest call before; `none`
when `endGame` has not been called. -/
def endGameAfter : List String → Game → Option Bool → Option Bool
  | [], _, prev => prev
  | input :: inputs, s, prev =>
    endGameAfter inputs (enterGuess input s) (lastEndGame prev (enterGuess input s).calls)

/-- Every call of `handleGuess` in the run of `inputs` from state `s` is made while the
guess field and the guess button are enabled, as the calls are that the page dispatches
(lines 145-152). -/
def dispatched : List String → Game → Prop
  | [], _ => True
  | input :: inputs, s =>
    (s.guessInputDisabled = false ∧ s.guessButtonDisabled = false) ∧
      dispatched inputs (enterGuess input s)

/-! ## Double arithmetic of line 43 -/

/-- A finite non-negative IEEE 754 double (binary64 `Number`), given by an integer
significand and an exponent: the number `mantissa * 2 ^ exponent`. -/
structure Float64 where
  mantissa : Nat
  exponent : Int
deriving DecidableEq

/-- The pair is a double: a significand of at most 53 bits and an exponent within the range
of binary64 (the least is that of the subnormal numbers, the greatest that of the largest
finite double). -/
def Float64.isDouble (x : Float64) : Prop :=
  x.mantissa < 2 ^ 53 ∧ -1074 ≤ x.exponent ∧ x.exponent ≤ 971

instance (x : Float64) : Decidable x.isDouble :=
  inferInstanceAs (Decidable (_ ∧ _ ∧ _))

/-- The rational number that the double denotes. -/
def Float64.toRat (x : Float64) : ℚ :=
  (x.mantissa : ℚ) * (2 : ℚ) ^ x.exponent

/-- The number of low bits that a significand `p` has beyond 53, for `p` below
`2 ^ (53 + fuel)` (lemma `excessBits_spec`). -/
def excessBits : Nat → Nat → Nat
  | 0, _ => 0
  | fuel + 1, p => if p < 2 ^ 53 then 0 else excessBits fuel (p / 2) + 1

/-- The quotient `p / 2 ^ k` rounded to the nearest integer, a tie going to the even one:
the rounding mode of IEEE 754 arithmetic (lemma `roundHalfEven_near`). -/
def roundHalfEven (p k : Nat) : Nat :=
  let q := p / 2 ^ k
  let r := p % 2 ^ k
  if 2 * r < 2 ^ k then q
  else if 2 ^ k < 2 * r then q + 1
  else if q % 2 = 0 then q
  else q + 1

/-- The product `x * n` of a double and an integer below `2 ^ 53` (a double itself) as the
operator `*` computes it: the exact product `(mantissa * n) * 2 ^ exponent` rounded to a
significand of 53 bits (lemma `Float64.timesNat_near`).  The exact significand is below
`2 ^ 106`, so 64 bits of fuel suffice; overflow to `Infinity` is not modelled, the products
of line 43 are below 8. -/
def Float64.timesNat (x : Float64) (n : Nat) : Float64 :=
  let p := x.mantissa * n
  let k := excessBits 64 p
  { mantissa := roundHalfEven p k, exponent := x.exponent + (k : Int) }

/-- The function `Math.floor` on a double; the result is exact (lemma `Float64.floor_eq`). -/
def Float64.floor (x : Float64) : Int :=
  if 0 ≤ x.exponent then ((x.mantissa * 2 ^ x.exponent.toNat : Nat) : Int)
  else ((x.mantissa / 2 ^ (-x.exponent).toNat : Nat) : Int)

/-- The value `Math.floor(Math.random() * wordList.length)` of line 43 as the script computes
it, in double arithmetic, for the double `random` that `Math.random()` returned.  At
isolated doubles it differs by one from `randomIndex`, which does not round the product. -/
def randomIndexDouble (random : Float64) : Int :=
  (random.timesNat wordList.length).floor

/-- Function `initGame()` (lines 30-50) with line 43 computed in double arithmetic; apart from
the index it is `initGame`, and both start the same rounds (lemma
`initGameDouble_eq_freshRound`). -/
def initGameDouble (random : Float64) (s : Game) : Option Game :=
  let s := { s with
    guessedLetters := []
    incorrectGuesses := 0
    messageText := ""
    messageClass := "message"
    resetButtonDisplay := "none"
    guessInputDisabled := false
    guessButtonDisabled := false
    guessInputValue := ""
    calls := [] }
  match wordListAt (randomIndexDouble random) with
  | none => none
  | some entry =>
    let s := { s with currentWord := entry.word, currentHint := entry.hint }
    let s := { s with hintText := s.currentHint }
    some (updateDisplay s)

instance (s : Game) : Decidable (markedEnded s) :=
  inferInstanceAs (Decidable (_ ∧ _ ∧ _))

/-! ## Lemmas -/

theorem includes_singleton (w : String) (c : Char) :
    includes w (String.singleton c) = true ↔ c ∈ w.toList := by
  unfold includes
  simp only [List.any_eq_true]
  constructor
  · rintro ⟨t, ht, hp⟩
    have : (String.singleton c).toList = [c] := rfl
    rw [this] at hp
    cases t with
    | nil => simp at hp
    | cons a t =>
      simp at hp
      subst hp
      have := (List.mem_tails _ _).1 ht
      exact this.subset (List.mem_cons_self _ _)
  · intro h
    obtain ⟨l1, l2, h⟩ := List.append_of_mem h
    refine ⟨c :: l2, ?_, ?_⟩
    · rw [List.mem_tails, h]; exact List.suffix_append _ _
    · have : (String.singleton c).toList = [c] := rfl
      rw [this]; simp

theorem maskLoop_aux (g : List String) (l : List Char) (d : String) (b : Bool) :
    l.foldl
      (fun (acc : String × Bool) (letter : Char) =>
        if g.contains (String.singleton letter) then
          (acc.1 ++ String.singleton letter, acc.2)
        else
          (acc.1 ++ "_", false))
      (d, b)
    = (d ++ String.mk (l.map (fun c => if g.contains (String.singleton c) then c else '_')),
       b && l.all (fun c => g.contains (String.singleton c))) := by
  induction l generalizing d b with
  | nil => simp
  | cons a l ih =>
    simp only [List.foldl_cons, List.map_cons, List.all_cons]
    by_cases h : g.contains (String.singleton a) = true
    · simp only [h, if_true, ih]
      simp [String.ext_iff, String.singleton]
    · simp only [h, ih]
      simp [String.ext_iff]

theorem maskLoop_eq (w : String) (g : List String) :
    maskLoop w g =
      (String.mk (w.toList.map (fun c => if g.contains (String.singleton c) then c else '_')),
       w.toList.all (fun c => g.contains (String.singleton c))) := by
  unfold maskLoop
  rw [maskLoop_aux]
  simp [String.ext_iff]

theorem wordGuessed_iff (s : Game) :
    wordGuessed s = true ↔ ∀ c ∈ s.currentWord.toList, String.singleton c ∈ s.guessedLetters := by
  simp [wordGuessed, maskLoop_eq]

theorem updateDisplay_eq (s : Game) :
    updateDisplay s =
      let t : Game := { s with
        wordDisplayText := spaced (displayWord s)
        guessesLeft := (maxIncorrectGuesses : Int) - (s.incorrectGuesses : Int)
        guessedLettersText := ", ".intercalate (incorrectLetters s.currentWord s.guessedLetters) }
      if wordGuessed s then endGame true t
      else if s.incorrectGuesses ≥ maxIncorrectGuesses then endGame false t
      else t := by
  rfl

@[simp] theorem updateDisplay_currentWord (s : Game) :
    (updateDisplay s).currentWord = s.currentWord := by
  rw [updateDisplay_eq]; simp only [endGame, showMessage]; split_ifs <;> rfl

@[simp] theorem updateDisplay_currentHint (s : Game) :
    (updateDisplay s).currentHint = s.currentHint := by
  rw [updateDisplay_eq]; simp only [endGame, showMessage]; split_ifs <;> rfl

@[simp] theorem updateDisplay_guessedLetters (s : Game) :
    (updateDisplay s).guessedLetters = s.guessedLetters := by
  rw [updateDisplay_eq]; simp only [endGame, showMessage]; split_ifs <;> rfl

@[simp] theorem updateDisplay_incorrectGuesses (s : Game) :
    (updateDisplay s).incorrectGuesses = s.incorrectGuesses := by
  rw [updateDisplay_eq]; simp only [endGame, showMessage]; split_ifs <;> rfl

theorem updateDisplay_inputDisabled (s : Game) :
    (updateDisplay s).guessInputDisabled = (roundOver s || s.guessInputDisabled) := by
  rw [updateDisplay_eq]; simp only [endGame, showMessage, roundOver]
  by_cases h1 : wordGuessed s = true <;>
    by_cases h2 : s.incorrectGuesses ≥ maxIncorrectGuesses <;> simp [h1, h2]

theorem updateDisplay_buttonDisabled (s : Game) :
    (updateDisplay s).guessButtonDisabled = (roundOver s || s.guessButtonDisabled) := by
  rw [updateDisplay_eq]; simp only [endGame, showMessage, roundOver]
  by_cases h1 : wordGuessed s = true <;>
    by_cases h2 : s.incorrectGuesses ≥ maxIncorrectGuesses <;> simp [h1, h2]

theorem updateDisplay_resetDisplay (s : Game) :
    (updateDisplay s).resetButtonDisplay =
      if roundOver s then "block" else s.resetButtonDisplay := by
  rw [updateDisplay_eq]; simp only [endGame, showMessage, roundOver]
  by_cases h1 : wordGuessed s = true <;>
    by_cases h2 : s.incorrectGuesses ≥ maxIncorrectGuesses <;> simp [h1, h2]

/-- The state `handleGuess` works on after line 89. -/
theorem enterGuess_eq (input : String) (s : Game) :
    enterGuess input s =
      let guess := toUpperCase input
      let t : Game := { s with guessInputValue := "", calls := [] }
      if matchesAZ guess = false then
        showMessage "Please enter a single valid letter (A-Z)." "warning" t
      else if guess ∈ s.guessedLetters then
        showMessage ("You already guessed the letter \"" ++ guess ++ "\".") "warning" t
      else if includes s.currentWord guess then
        updateDisplay (showMessage ("Correct guess! The letter \"" ++ guess ++ "\" is in the word.")
          "correct" { t with guessedLetters := s.guessedLetters ++ [guess] })
      else
        updateDisplay (showMessage
          ("Incorrect guess. The letter \"" ++ guess ++ "\" is not in the word.") "incorrect"
          { t with guessedLetters := s.guessedLetters ++ [guess],
                   incorrectGuesses := s.incorrectGuesses + 1 }) := by
  simp only [enterGuess, handleGuess]
  by_cases h1 : matchesAZ (toUpperCase input) = true
  · by_cases h2 : toUpperCase input ∈ s.guessedLetters
    · simp [h1, h2]
    · by_cases h3 : includes s.currentWord (toUpperCase input) = true
      · simp [h1, h2, h3]
      · simp [h1, h2, h3]
  · simp [h1]

theorem accepts_iff (s : Game) (input : String) :
    accepts s input = true ↔
      matchesAZ (toUpperCase input) = true ∧ toUpperCase input ∉ s.guessedLetters := by
  simp [accepts]

theorem enterGuess_rejected (input : String) (s : Game) (h : accepts s input = false) :
    (enterGuess input s).guessedLetters = s.guessedLetters ∧
    (enterGuess input s).incorrectGuesses = s.incorrectGuesses ∧
    (enterGuess input s).currentWord = s.currentWord ∧
    (enterGuess input s).guessInputDisabled = s.guessInputDisabled ∧
    (enterGuess input s).guessButtonDisabled = s.guessButtonDisabled ∧
    (enterGuess input s).resetButtonDisplay = s.resetButtonDisplay ∧
    (enterGuess input s).currentHint = s.currentHint := by
  rw [enterGuess_eq]
  by_cases h1 : matchesAZ (toUpperCase input) = true
  · have h2 : toUpperCase input ∈ s.guessedLetters := by
      by_contra h2
      have := (accepts_iff s input).2 ⟨h1, h2⟩
      simp [h] at this
    simp [h1, h2, showMessage]
  · simp [h1, showMessage]

theorem enterGuess_accepted (input : String) (s : Game) (h : accepts s input = true) :
    (enterGuess input s).guessedLetters = s.guessedLetters ++ [toUpperCase input] ∧
    (enterGuess input s).incorrectGuesses =
      (if includes s.currentWord (toUpperCase input) then s.incorrectGuesses
       else s.incorrectGuesses + 1) ∧
    (enterGuess input s).currentWord = s.currentWord ∧
    (enterGuess input s).currentHint = s.currentHint := by
  rw [enterGuess_eq]
  obtain ⟨h1, h2⟩ := (accepts_iff s input).1 h
  by_cases h3 : includes s.currentWord (toUpperCase input) = true
  · simp [h1, h2, h3, showMessage]
  · simp [h1, h2, h3, showMessage]


theorem randomIndex_half : randomIndex (1 / 2) = 2 := by
  norm_num [randomIndex, wordList]

theorem initGame_eq_freshRound (random : ℚ) (s : Game) (entry : WordEntry)
    (h : wordListAt (randomIndex random) = some entry) :
    initGame random s = some (freshRound entry) := by
  simp only [initGame, h, freshRound]
  rfl

theorem initGame_some (random : ℚ) (s s1 : Game) (h : initGame random s = some s1) :
    ∃ entry ∈ wordList, wordListAt (randomIndex random) = some entry ∧ s1 = freshRound entry := by
  cases he : wordListAt (randomIndex random) with
  | none => simp [initGame, he] at h
  | some entry =>
    rw [initGame_eq_freshRound random s entry he] at h
    refine ⟨entry, ?_, rfl, (Option.some.inj h).symm⟩
    unfold wordListAt at he
    split_ifs at he
    exact List.getElem?_mem he

theorem initGame_half (s : Game) : initGame (1 / 2) s = some websiteRound :=
  initGame_eq_freshRound _ _ _ (by rw [randomIndex_half]; rfl)

theorem roundOver_congr (s t : Game) (h1 : t.currentWord = s.currentWord)
    (h2 : t.guessedLetters = s.guessedLetters) (h3 : t.incorrectGuesses = s.incorrectGuesses) :
    roundOver t = roundOver s := by
  simp [roundOver, wordGuessed, h1, h2, h3]

theorem wordGuessed_mono (s t : Game) (h1 : t.currentWord = s.currentWord)
    (h2 : s.guessedLetters ⊆ t.guessedLetters) (h : wordGuessed s = true) :
    wordGuessed t = true := by
  rw [wordGuessed_iff] at h ⊢
  intro c hc
  rw [h1] at hc
  exact h2 (h c hc)

theorem roundOver_mono (s t : Game) (h1 : t.currentWord = s.currentWord)
    (h2 : s.guessedLetters ⊆ t.guessedLetters) (h3 : s.incorrectGuesses ≤ t.incorrectGuesses)
    (h : roundOver s = true) : roundOver t = true := by
  simp only [roundOver, Bool.or_eq_true, decide_eq_true_eq] at h ⊢
  rcases h with h | h
  · exact Or.inl (wordGuessed_mono s t h1 h2 h)
  · exact Or.inr (le_trans h h3)

theorem enterGuess_roundOver_rejected (input : String) (s : Game)
    (h : accepts s input = false) : roundOver (enterGuess input s) = roundOver s := by
  obtain ⟨h1, h2, h3, -⟩ := enterGuess_rejected input s h
  exact roundOver_congr _ _ h3 h1 h2

theorem enterGuess_roundOver_mono (input : String) (s : Game) (h : roundOver s = true) :
    roundOver (enterGuess input s) = true := by
  cases ha : accepts s input with
  | false => rw [enterGuess_roundOver_rejected input s ha]; exact h
  | true =>
    obtain ⟨h1, h2, h3, -⟩ := enterGuess_accepted input s ha
    refine roundOver_mono s _ h3 ?_ ?_ h
    · rw [h1]; exact List.subset_append_left _ _
    · rw [h2]; split_ifs <;> omega

/-- An accepted guess ends in `updateDisplay` (line 112), run on a state `t` that differs
from `s` in the new letter, the counter, the message and the cleared guess field. -/
theorem enterGuess_accepted_eq (input : String) (s : Game) (h : accepts s input = true) :
    ∃ t : Game, enterGuess input s = updateDisplay t ∧
      t.currentWord = s.currentWord ∧
      t.guessedLetters = s.guessedLetters ++ [toUpperCase input] ∧
      t.incorrectGuesses = (if includes s.currentWord (toUpperCase input) then s.incorrectGuesses
        else s.incorrectGuesses + 1) ∧
      t.guessInputDisabled = s.guessInputDisabled ∧
      t.guessButtonDisabled = s.guessButtonDisabled ∧
      t.resetButtonDisplay = s.resetButtonDisplay ∧
      t.calls = [if includes s.currentWord (toUpperCase input) then
          Call.showMessage ("Correct guess! The letter \"" ++ toUpperCase input ++ "\" is in the word.")
            "correct"
        else
          Call.showMessage
            ("Incorrect guess. The letter \"" ++ toUpperCase input ++ "\" is not in the word.")
            "incorrect"] := by
  obtain ⟨h1, h2⟩ := (accepts_iff s input).1 h
  rw [enterGuess_eq]
  by_cases h3 : includes s.currentWord (toUpperCase input) = true
  · simp only [h1, h2, h3, if_true, if_false, Bool.true_eq_false]
    exact ⟨_, rfl, rfl, rfl, rfl, rfl, rfl, rfl, rfl⟩
  · simp only [h1, h2, h3, if_true, if_false, Bool.true_eq_false]
    exact ⟨_, rfl, rfl, rfl, rfl, rfl, rfl, rfl, rfl⟩

theorem roundOver_updateDisplay (t : Game) : roundOver (updateDisplay t) = roundOver t :=
  roundOver_congr _ _ (updateDisplay_currentWord _) (updateDisplay_guessedLetters _)
    (updateDisplay_incorrectGuesses _)

/-- What an accepted guess does to the three controls that `endGame` sets. -/
theorem enterGuess_accepted_controls (input : String) (s : Game) (h : accepts s input = true) :
    (enterGuess input s).guessInputDisabled
        = (roundOver (enterGuess input s) || s.guessInputDisabled) ∧
    (enterGuess input s).guessButtonDisabled
        = (roundOver (enterGuess input s) || s.guessButtonDisabled) ∧
    (enterGuess input s).resetButtonDisplay
        = (if roundOver (enterGuess input s) then "block" else s.resetButtonDisplay) := by
  obtain ⟨t, ht, -, -, -, e1, e2, e3, -⟩ := enterGuess_accepted_eq input s h
  rw [ht, updateDisplay_inputDisabled, updateDisplay_buttonDisabled, updateDisplay_resetDisplay,
    roundOver_updateDisplay, e1, e2, e3]
  exact ⟨rfl, rfl, rfl⟩

theorem enterGuess_markedEnded (input : String) (s : Game) (h : markedEnded s) :
    markedEnded (enterGuess input s) := by
  obtain ⟨h1, h2, h3⟩ := h
  cases ha : accepts s input with
  | false =>
    obtain ⟨-, -, -, e1, e2, e3, -⟩ := enterGuess_rejected input s ha
    exact ⟨e1.trans h1, e2.trans h2, e3.trans h3⟩
  | true =>
    obtain ⟨e1, e2, e3⟩ := enterGuess_accepted_controls input s ha
    refine ⟨by rw [e1, h1]; simp, by rw [e2, h2]; simp, ?_⟩
    rw [e3, h3]; simp


theorem freshRound_start :
    ∀ entry ∈ wordList,
      (freshRound entry).currentWord = entry.word ∧ (freshRound entry).currentHint = entry.hint ∧
      (freshRound entry).guessedLetters = [] ∧ (freshRound entry).incorrectGuesses = 0 ∧
      roundOver (freshRound entry) = false ∧
      (freshRound entry).guessInputDisabled = false ∧
      (freshRound entry).guessButtonDisabled = false ∧
      (freshRound entry).resetButtonDisplay = "none" := by
  decide

theorem inv_freshRound (entry : WordEntry) (h : entry ∈ wordList) : Inv (freshRound entry) := by
  obtain ⟨h1, h2, h3, h4, h5, h6, h7, h8⟩ := freshRound_start entry h
  exact
    { word := ⟨entry, h, h1, h2⟩
      nodup := by rw [h3]; exact List.nodup_nil
      letters := by rw [h3]; simp
      count := by rw [h3, h4]; rfl
      input := by rw [h5, h6]
      button := by rw [h5, h7]
      reset := by rw [h5, h8]; rfl }

theorem incorrectLetters_append (w : String) (gl : List String) (g : String) :
    incorrectLetters w (gl ++ [g]) =
      incorrectLetters w gl ++ (if includes w g then [] else [g]) := by
  unfold incorrectLetters
  rw [List.filter_append]
  by_cases h : includes w g = true <;> simp [h]

theorem inv_enterGuess (input : String) (s : Game) (h : Inv s) : Inv (enterGuess input s) := by
  cases ha : accepts s input with
  | false =>
    obtain ⟨e1, e2, e3, e4, e5, e6, e7⟩ := enterGuess_rejected input s ha
    have er := enterGuess_roundOver_rejected input s ha
    exact
      { word := by rw [e3, e7]; exact h.word
        nodup := by rw [e1]; exact h.nodup
        letters := by rw [e1]; exact h.letters
        count := by rw [e1, e2, e3]; exact h.count
        input := by rw [e4, er]; exact h.input
        button := by rw [e5, er]; exact h.button
        reset := by rw [e6, er]; exact h.reset }
  | true =>
    obtain ⟨h1, h2⟩ := (accepts_iff s input).1 ha
    obtain ⟨e1, e2, e3, e7⟩ := enterGuess_accepted input s ha
    obtain ⟨c1, c2, c3⟩ := enterGuess_accepted_controls input s ha
    have hm : roundOver s = true → roundOver (enterGuess input s) = true :=
      enterGuess_roundOver_mono input s
    exact
      { word := by rw [e3, e7]; exact h.word
        nodup := by
          rw [e1]
          exact List.Nodup.append h.nodup (List.nodup_singleton _) (by simpa using h2)
        letters := by
          rw [e1]
          intro g hg
          rcases List.mem_append.1 hg with hg | hg
          · exact h.letters g hg
          · rw [List.mem_singleton.1 hg]; exact h1
        count := by
          rw [e1, e2, e3, incorrectLetters_append, List.length_append, ← h.count]
          split_ifs <;> rfl
        input := by
          rw [c1, h.input]
          cases hr : roundOver s with
          | false => simp
          | true => simp [hm hr]
        button := by
          rw [c2, h.button]
          cases hr : roundOver s with
          | false => simp
          | true => simp [hm hr]
        reset := by
          rw [c3, h.reset]
          cases hr : roundOver s with
          | false => simp
          | true => simp [hm hr] }

theorem inv_enterGuesses (inputs : List String) (s : Game) (h : Inv s) :
    Inv (enterGuesses inputs s) := by
  induction inputs generalizing s with
  | nil => exact h
  | cons input inputs ih => exact ih _ (inv_enterGuess input s h)

theorem inv_of_initGame (random : ℚ) (s0 s1 : Game) (h : initGame random s0 = some s1)
    (inputs : List String) : Inv (enterGuesses inputs s1) := by
  obtain ⟨entry, he, -, rfl⟩ := initGame_some random s0 s1 h
  exact inv_enterGuesses inputs _ (inv_freshRound entry he)

theorem inv_of_reachable (s : Game) (h : Reachable s) : Inv s := by
  obtain ⟨random, s0, s1, inputs, h1, rfl⟩ := h
  exact inv_of_initGame random s0 s1 h1 inputs

theorem char_le_iff (a b : Char) : a ≤ b ↔ a.toNat ≤ b.toNat := Iff.rfl

theorem upperCodePoint_lower (c : Char) (h : 'a' ≤ c ∧ c ≤ 'z') :
    'A' ≤ upperCodePoint c ∧ upperCodePoint c ≤ 'Z' := by
  have h1 : 97 ≤ c.toNat := (char_le_iff _ _).1 h.1
  have h2 : c.toNat ≤ 122 := (char_le_iff _ _).1 h.2
  have hc : c = Char.ofNat c.toNat := (Char.ofNat_toNat c).symm
  generalize c.toNat = n at h1 h2 hc
  subst hc
  interval_cases n <;> decide

theorem upperCodePoint_upper (c : Char) (h : 'A' ≤ c ∧ c ≤ 'Z') : upperCodePoint c = c := by
  have h1 : 65 ≤ c.toNat := (char_le_iff _ _).1 h.1
  have h2 : c.toNat ≤ 90 := (char_le_iff _ _).1 h.2
  have hc : c = Char.ofNat c.toNat := (Char.ofNat_toNat c).symm
  generalize c.toNat = n at h1 h2 hc
  subst hc
  interval_cases n <;> decide

theorem toUpperCase_singleton (c : Char) :
    toUpperCase (String.singleton c) = String.singleton (upperCodePoint c) := rfl

theorem matchesAZ_singleton (c : Char) :
    matchesAZ (String.singleton c) = decide ('A' ≤ c ∧ c ≤ 'Z') := rfl

theorem matchesAZ_letter (c : Char) (h : isLetter c = true) :
    matchesAZ (toUpperCase (String.singleton c)) = true := by
  rw [toUpperCase_singleton, matchesAZ_singleton, decide_eq_true_eq]
  simp only [isLetter, decide_eq_true_eq] at h
  rcases h with h | h
  · rw [upperCodePoint_upper c h]; exact h
  · exact upperCodePoint_lower c h

theorem enterGuess_guessInputValue (input : String) (s : Game) :
    (enterGuess input s).guessInputValue = "" := by
  rw [enterGuess_eq]
  simp only
  split_ifs <;> first | rfl | (rw [updateDisplay_eq]; simp only [endGame, showMessage]; split_ifs <;> rfl)

/-- A rejected guess changes the message, and nothing else but the cleared guess field. -/
theorem enterGuess_rejected_eq (input : String) (s : Game) (h : accepts s input = false) :
    enterGuess input s =
      { s with
        guessInputValue := ""
        messageText :=
          if matchesAZ (toUpperCase input) = false then
            "Please enter a single valid letter (A-Z)."
          else "You already guessed the letter \"" ++ toUpperCase input ++ "\"."
        messageClass := "message warning"
        calls := [Call.showMessage
          (if matchesAZ (toUpperCase input) = false then
            "Please enter a single valid letter (A-Z)."
          else "You already guessed the letter \"" ++ toUpperCase input ++ "\".") "warning"] } := by
  rw [enterGuess_eq]
  cases h1 : matchesAZ (toUpperCase input) with
  | false =>
    simp only [h1, if_true]
    rfl
  | true =>
    have h2 : toUpperCase input ∈ s.guessedLetters := by
      by_contra h2
      have := (accepts_iff s input).2 ⟨h1, h2⟩
      simp [h] at this
    simp only [h1, h2, if_true, if_false, Bool.true_eq_false]
    rfl

theorem wrongLetters_card (s : Game) (h : s.guessedLetters.Nodup) :
    (wrongLetters s).card = (incorrectLetters s.currentWord s.guessedLetters).length := by
  unfold wrongLetters incorrectLetters
  rw [← List.toFinset_card_of_nodup (h.filter _), List.toFinset_filter]
  congr 1
  ext letter
  simp

/-- The inputs that pass the test of line 92: the single letters `A-Z` and `a-z`, and the
two single characters U+0131 and U+017F. -/
theorem matchesAZ_toUpperCase_iff (input : String) :
    matchesAZ (toUpperCase input) = true ↔
      ∃ c : Char, input = String.singleton c ∧
        (isLetter c = true ∨ c = Char.ofNat 0x131 ∨ c = Char.ofNat 0x17F) := by
  constructor
  · intro h
    unfold matchesAZ toUpperCase at h
    rcases input with ⟨l⟩
    match l, h with
    | [c], h =>
      refine ⟨c, rfl, ?_⟩
      simp only [String.toList, List.map_cons, List.map_nil, decide_eq_true_eq] at h
      unfold upperCodePoint at h
      simp only [isLetter, decide_eq_true_eq]
      by_cases h1 : 'a' ≤ c ∧ c ≤ 'z'
      · exact Or.inl (Or.inr h1)
      · rw [if_neg h1] at h
        by_cases h2 : c = Char.ofNat 0x131
        · exact Or.inr (Or.inl h2)
        · rw [if_neg h2] at h
          by_cases h3 : c = Char.ofNat 0x17F
          · exact Or.inr (Or.inr h3)
          · rw [if_neg h3] at h
            exact Or.inl (Or.inl h)
    | [], h => simp [String.toList] at h
    | _ :: _ :: _, h => simp [String.toList] at h
  · rintro ⟨c, rfl, h | h | h⟩
    · exact matchesAZ_letter c h
    · subst h; decide
    · subst h; decide

/-- After `handleGuess` has run on an input that passes the test of line 92, the upper-case
form of the input is in `guessedLetters`. -/
theorem enterGuess_mem (input : String) (s : Game) :
    matchesAZ (toUpperCase input) = true →
      toUpperCase input ∈ (enterGuess input s).guessedLetters := by
  intro h1
  cases ha : accepts s input with
  | false =>
    rw [(enterGuess_rejected input s ha).1]
    by_contra h2
    have := (accepts_iff s input).2 ⟨h1, h2⟩
    simp [ha] at this
  | true =>
    rw [(enterGuess_accepted input s ha).1]
    simp

theorem wordGuessed_updateDisplay (t : Game) : wordGuessed (updateDisplay t) = wordGuessed t := by
  simp [wordGuessed]

/-- The calls `updateDisplay` makes (lines 77-81). -/
theorem updateDisplay_calls (t : Game) :
    (updateDisplay t).calls = t.calls ++
      (if wordGuessed t then
        [Call.endGame true, Call.showMessage "🎉 Congratulations! You guessed the word!" "correct"]
      else if t.incorrectGuesses ≥ maxIncorrectGuesses then
        [Call.endGame false,
          Call.showMessage ("😔 Game Over! The word was \"" ++ t.currentWord ++ "\".") "incorrect"]
      else []) := by
  rw [updateDisplay_eq]; simp only [endGame, showMessage]
  by_cases h1 : wordGuessed t = true <;>
    by_cases h2 : t.incorrectGuesses ≥ maxIncorrectGuesses <;> simp [h1, h2]

/-- The message `updateDisplay` leaves. -/
theorem updateDisplay_messageText (t : Game) :
    (updateDisplay t).messageText =
      (if wordGuessed t then "🎉 Congratulations! You guessed the word!"
      else if t.incorrectGuesses ≥ maxIncorrectGuesses then
        "😔 Game Over! The word was \"" ++ t.currentWord ++ "\"."
      else t.messageText) := by
  rw [updateDisplay_eq]; simp only [endGame, showMessage]
  by_cases h1 : wordGuessed t = true <;>
    by_cases h2 : t.incorrectGuesses ≥ maxIncorrectGuesses <;> simp [h1, h2]

/-- The word `updateDisplay` shows: the masked word, or the whole word when the round is lost. -/
theorem updateDisplay_wordDisplayText (t : Game) :
    (updateDisplay t).wordDisplayText =
      (if wordGuessed t then spaced (displayWord t)
      else if t.incorrectGuesses ≥ maxIncorrectGuesses then spaced t.currentWord
      else spaced (displayWord t)) := by
  rw [updateDisplay_eq]; simp only [endGame, showMessage]
  by_cases h1 : wordGuessed t = true <;>
    by_cases h2 : t.incorrectGuesses ≥ maxIncorrectGuesses <;> simp [h1, h2]

theorem endGame_true_mem_iff (t : Game) (h : ∀ b, Call.endGame b ∉ t.calls) :
    Call.endGame true ∈ (updateDisplay t).calls ↔ wordGuessed t = true := by
  rw [updateDisplay_calls]
  by_cases h1 : wordGuessed t = true <;>
    by_cases h2 : t.incorrectGuesses ≥ maxIncorrectGuesses <;> simp [h1, h2, h]

theorem endGame_false_mem_iff (t : Game) (h : ∀ b, Call.endGame b ∉ t.calls) :
    Call.endGame false ∈ (updateDisplay t).calls ↔
      wordGuessed t = false ∧ maxIncorrectGuesses ≤ t.incorrectGuesses := by
  rw [updateDisplay_calls]
  by_cases h1 : wordGuessed t = true <;>
    by_cases h2 : t.incorrectGuesses ≥ maxIncorrectGuesses <;> simp [h1, h2, h]


theorem accepted_calls_no_endGame (s t : Game) (input : String)
    (h : t.calls = [if includes s.currentWord (toUpperCase input) then
          Call.showMessage ("Correct guess! The letter \"" ++ toUpperCase input ++ "\" is in the word.")
            "correct"
        else
          Call.showMessage
            ("Incorrect guess. The letter \"" ++ toUpperCase input ++ "\" is not in the word.")
            "incorrect"]) :
    ∀ b, Call.endGame b ∉ t.calls := by
  intro b
  rw [h]
  split_ifs <;> simp

theorem randomIndex_range (random : ℚ) (h0 : 0 ≤ random) (h1 : random < 1) :
    ∃ i : Nat, i < wordList.length ∧ randomIndex random = (i : Int) := by
  have hlen : ((wordList.length : ℕ) : ℚ) = 5 := by norm_num [wordList]
  have hnn : 0 ≤ randomIndex random := by
    unfold randomIndex
    rw [hlen]
    exact Int.floor_nonneg.2 (by positivity)
  have hlt : randomIndex random < 5 := by
    unfold randomIndex
    rw [hlen]
    rw [Int.floor_lt]
    push_cast
    linarith
  refine ⟨(randomIndex random).toNat, ?_, (Int.toNat_of_nonneg hnn).symm⟩
  have : wordList.length = 5 := rfl
  omega

theorem initGame_returns (random : ℚ) (h0 : 0 ≤ random) (h1 : random < 1) :
    ∃ (i : Nat) (entry : WordEntry), randomIndex random = (i : Int) ∧
      wordList[i]? = some entry ∧ entry ∈ wordList ∧
      ∀ s : Game, initGame random s = some (freshRound entry) := by
  obtain ⟨i, hi, hr⟩ := randomIndex_range random h0 h1
  refine ⟨i, wordList[i], hr, List.getElem?_eq_getElem hi, List.getElem_mem _, fun s => ?_⟩
  apply initGame_eq_freshRound
  rw [hr]
  simp [wordListAt, List.getElem?_eq_getElem hi]

theorem freshRound_fields :
    ∀ entry ∈ wordList,
      (freshRound entry).hintText = entry.hint ∧
      (freshRound entry).guessInputValue = "" ∧
      (freshRound entry).messageText = "" ∧
      (freshRound entry).messageClass = "message" ∧
      (freshRound entry).calls = [] ∧
      (freshRound entry).guessesLeft = (maxIncorrectGuesses : Int) ∧
      (freshRound entry).guessedLettersText = "" ∧
      incorrectLetters (freshRound entry).currentWord (freshRound entry).guessedLetters = [] ∧
      displayWord (freshRound entry)
        = String.mk (List.replicate (freshRound entry).currentWord.length '_') ∧
      (freshRound entry).wordDisplayText = spaced (displayWord (freshRound entry)) ∧
      0 < (freshRound entry).currentWord.length := by
  decide

theorem map_mask_eq_self_iff (g : List String) (l : List Char) (h : '_' ∉ l) :
    l.map (fun c => if g.contains (String.singleton c) then c else '_') = l ↔
      ∀ c ∈ l, String.singleton c ∈ g := by
  induction l with
  | nil => simp
  | cons a l ih =>
    have ha : ¬ '_' = a := fun e => h (e ▸ List.mem_cons_self _ _)
    have hl : '_' ∉ l := fun e => h (List.mem_cons_of_mem _ e)
    simp only [List.map_cons, List.cons.injEq, ih hl, List.mem_cons, forall_eq_or_imp]
    by_cases hg : String.singleton a ∈ g
    · simp [hg]
    · simp [hg, ha]

theorem matchesAZ_iff (g : String) :
    matchesAZ g = true ↔ ∃ c : Char, g = String.singleton c ∧ 'A' ≤ c ∧ c ≤ 'Z' := by
  constructor
  · intro h
    unfold matchesAZ at h
    rcases g with ⟨l⟩
    match l, h with
    | [c], h =>
      simp only [String.toList, decide_eq_true_eq] at h
      exact ⟨c, rfl, h.1, h.2⟩
    | [], h => simp [String.toList] at h
    | _ :: _ :: _, h => simp [String.toList] at h
  · rintro ⟨c, rfl, h⟩
    rw [matchesAZ_singleton]
    exact decide_eq_true h

theorem toUpperCase_toLower (u : Char) (h : 'A' ≤ u ∧ u ≤ 'Z') :
    'a' ≤ u.toLower ∧ u.toLower ≤ 'z' ∧ upperCodePoint u.toLower = u := by
  have h1 : 65 ≤ u.toNat := (char_le_iff _ _).1 h.1
  have h2 : u.toNat ≤ 90 := (char_le_iff _ _).1 h.2
  have hc : u = Char.ofNat u.toNat := (Char.ofNat_toNat u).symm
  generalize u.toNat = n at h1 h2 hc
  subst hc
  interval_cases n <;> decide

theorem enterGuess_congr (a b : String) (s : Game) (h : toUpperCase a = toUpperCase b) :
    enterGuess a s = enterGuess b s := by
  rw [enterGuess_eq, enterGuess_eq, h]

theorem wordList_words :
    wordList ≠ [] ∧
    ∀ entry ∈ wordList, entry.word ≠ "" ∧ 0 < entry.word.length ∧
      ∀ c ∈ entry.word.toList, 'A' ≤ c ∧ c ≤ 'Z' := by
  decide

theorem randomIndex_onto (i : Nat) (h : i < wordList.length) :
    (0 : ℚ) ≤ (i : ℚ) / 5 ∧ (i : ℚ) / 5 < 1 ∧ randomIndex ((i : ℚ) / 5) = (i : Int) := by
  have hl : wordList.length = 5 := rfl
  rw [hl] at h
  refine ⟨by positivity, ?_, ?_⟩
  · rw [div_lt_one (by norm_num)]
    exact_mod_cast h
  · unfold randomIndex
    rw [hl]
    have : (i : ℚ) / 5 * ((5 : ℕ) : ℚ) = ((i : ℤ) : ℚ) := by
      push_cast
      field_simp
    rw [this, Int.floor_intCast]

theorem updateDisplay_guessesLeft (t : Game) :
    (updateDisplay t).guessesLeft = (maxIncorrectGuesses : Int) - (t.incorrectGuesses : Int) := by
  rw [updateDisplay_eq]; simp only [endGame, showMessage]; split_ifs <;> rfl

theorem updateDisplay_guessedLettersText (t : Game) :
    (updateDisplay t).guessedLettersText
      = ", ".intercalate (incorrectLetters t.currentWord t.guessedLetters) := by
  rw [updateDisplay_eq]; simp only [endGame, showMessage]; split_ifs <;> rfl

theorem displayWord_updateDisplay (t : Game) : displayWord (updateDisplay t) = displayWord t := by
  simp [displayWord]

theorem invDisplay_updateDisplay (t : Game) : InvDisplay (updateDisplay t) where
  left := by rw [updateDisplay_guessesLeft, updateDisplay_incorrectGuesses]
  shown := by
    rw [updateDisplay_guessedLettersText, updateDisplay_currentWord, updateDisplay_guessedLetters]
  display := by
    rw [updateDisplay_wordDisplayText, wordGuessed_updateDisplay, displayWord_updateDisplay,
      updateDisplay_incorrectGuesses, updateDisplay_currentWord]
    by_cases h1 : wordGuessed t = true <;>
      by_cases h2 : t.incorrectGuesses ≥ maxIncorrectGuesses <;> simp [h1, h2]

theorem invDisplay_enterGuess (input : String) (s : Game) (h : InvDisplay s) :
    InvDisplay (enterGuess input s) := by
  cases ha : accepts s input with
  | false =>
    rw [enterGuess_rejected_eq input s ha]
    exact { left := h.left, shown := h.shown, display := h.display }
  | true =>
    obtain ⟨t, ht, -⟩ := enterGuess_accepted_eq input s ha
    rw [ht]
    exact invDisplay_updateDisplay t

theorem invDisplay_enterGuesses (inputs : List String) (s : Game) (h : InvDisplay s) :
    InvDisplay (enterGuesses inputs s) := by
  induction inputs generalizing s with
  | nil => exact h
  | cons input inputs ih => exact ih _ (invDisplay_enterGuess input s h)

theorem invDisplay_of_initGame (random : ℚ) (s0 s1 : Game) (h : initGame random s0 = some s1)
    (inputs : List String) : InvDisplay (enterGuesses inputs s1) := by
  obtain ⟨entry, -, -, rfl⟩ := initGame_some random s0 s1 h
  exact invDisplay_enterGuesses inputs _ (invDisplay_updateDisplay _)

/-- The value that `endGame` calls leave for a state whose round is decided by its global
variables: won, lost or in progress. -/
theorem lastEndGame_updateDisplay (t : Game) (prev : Option Bool)
    (h : ∀ b, Call.endGame b ∉ t.calls) :
    lastEndGame prev (updateDisplay t).calls =
      (if wordGuessed t then some true
      else if t.incorrectGuesses ≥ maxIncorrectGuesses then some false
      else prev) := by
  have hpre : ∀ (calls : List Call) (p : Option Bool), (∀ b, Call.endGame b ∉ calls) →
      lastEndGame p calls = p := by
    intro calls
    induction calls with
    | nil => intro p _; rfl
    | cons call calls ih =>
      intro p hc
      cases call with
      | showMessage text type =>
        exact ih p (fun b hb => hc b (List.mem_cons_of_mem _ hb))
      | endGame won => exact absurd (List.mem_cons_self _ _) (hc won)
  rw [updateDisplay_calls]
  unfold lastEndGame
  rw [List.foldl_append]
  have := hpre t.calls prev h
  unfold lastEndGame at this
  rw [this]
  by_cases h1 : wordGuessed t = true <;>
    by_cases h2 : t.incorrectGuesses ≥ maxIncorrectGuesses <;> simp [h1, h2]

/-- The round as its global variables decide it: `some true` for won, `some false` for lost,
`none` for in progress. -/
theorem endGameAfter_eq (inputs : List String) (s : Game) (prev : Option Bool)
    (hprev : prev = (if wordGuessed s then some true
      else if s.incorrectGuesses ≥ maxIncorrectGuesses then some false else none)) :
    endGameAfter inputs s prev =
      (if wordGuessed (enterGuesses inputs s) then some true
      else if (enterGuesses inputs s).incorrectGuesses ≥ maxIncorrectGuesses then some false
      else none) := by
  induction inputs generalizing s prev with
  | nil => exact hprev
  | cons input inputs ih =>
    apply ih
    cases ha : accepts s input with
    | false =>
      obtain ⟨e1, e2, e3, -⟩ := enterGuess_rejected input s ha
      have hw : wordGuessed (enterGuess input s) = wordGuessed s := by
        simp [wordGuessed, e1, e3]
      rw [hw, e2, ← hprev, enterGuess_rejected_eq input s ha]
      rfl
    | true =>
      obtain ⟨t, ht, tw, tg, tn, -, -, -, hc⟩ := enterGuess_accepted_eq input s ha
      have hne := accepted_calls_no_endGame s t input hc
      rw [ht, lastEndGame_updateDisplay t prev hne, wordGuessed_updateDisplay,
        updateDisplay_incorrectGuesses]
      by_cases h1 : wordGuessed t = true
      · simp [h1]
      · by_cases h2 : t.incorrectGuesses ≥ maxIncorrectGuesses
        · simp [h1, h2]
        · have hro : roundOver s = false := by
            by_contra hr
            have hr1 : roundOver s = true := by simpa using hr
            have := roundOver_mono s t tw (by rw [tg]; exact List.subset_append_left _ _)
              (by rw [tn]; split_ifs <;> omega) hr1
            simp [roundOver, h1, h2] at this
          simp only [roundOver, Bool.or_eq_false_iff, decide_eq_false_iff_not] at hro
          simp [h1, h2, hprev, hro.1, hro.2]

theorem freshRound_noEndGame (entry : WordEntry) (h : entry ∈ wordList) :
    lastEndGame none (freshRound entry).calls =
      (if wordGuessed (freshRound entry) then some true
      else if (freshRound entry).incorrectGuesses ≥ maxIncorrectGuesses then some false
      else none) := by
  obtain ⟨-, -, -, h4, h5, -⟩ := freshRound_start entry h
  obtain ⟨-, -, -, -, b5, -⟩ := freshRound_fields entry h
  simp only [roundOver, Bool.or_eq_false_iff, decide_eq_false_iff_not] at h5
  rw [b5, h5.1, h4]
  rfl

theorem roundOver_iff (s : Game) :
    roundOver s = true ↔
      (∀ c ∈ s.currentWord.toList, String.singleton c ∈ s.guessedLetters) ∨
      maxIncorrectGuesses ≤ s.incorrectGuesses := by
  simp only [roundOver, Bool.or_eq_true, decide_eq_true_eq, wordGuessed_iff]

theorem mem_intersperse_of_mem (sep a : Char) (l : List Char) (h : a ∈ l) :
    a ∈ l.intersperse sep := by
  induction l with
  | nil => simp at h
  | cons b l ih =>
    cases l with
    | nil => simpa using h
    | cons c l =>
      rw [List.intersperse_cons_cons]
      rcases List.mem_cons.1 h with h | h
      · exact h ▸ List.mem_cons_self _ _
      · exact List.mem_cons_of_mem _ (List.mem_cons_of_mem _ (ih h))

theorem placeholder_mem_displayWord (s : Game) (h : wordGuessed s = false) :
    '_' ∈ (displayWord s).toList := by
  have hn : ¬ ∀ c ∈ s.currentWord.toList, String.singleton c ∈ s.guessedLetters := by
    rw [← wordGuessed_iff, h]; simp
  push_neg at hn
  obtain ⟨c, hc, hg⟩ := hn
  unfold displayWord
  rw [maskLoop_eq]
  show '_' ∈ s.currentWord.toList.map _
  refine List.mem_map.2 ⟨c, hc, ?_⟩
  simp [hg]

theorem word_no_placeholder (s : Game) (h : Inv s) : '_' ∉ s.currentWord.toList := by
  obtain ⟨entry, he, hw, -⟩ := h.word
  intro hm
  rw [hw] at hm
  have := (wordList_words.2 entry he).2.2 '_' hm
  exact absurd this (by decide)

theorem enterGuess_incorrectGuesses_le (input : String) (s : Game) :
    (enterGuess input s).incorrectGuesses ≤ s.incorrectGuesses + 1 := by
  cases ha : accepts s input with
  | false => rw [(enterGuess_rejected input s ha).2.1]; omega
  | true =>
    rw [(enterGuess_accepted input s ha).2.1]
    split_ifs <;> omega

theorem dispatched_incorrectGuesses_le (inputs : List String) (s : Game) (hi : Inv s)
    (hd : dispatched inputs s) (hs : s.incorrectGuesses ≤ maxIncorrectGuesses) :
    (enterGuesses inputs s).incorrectGuesses ≤ maxIncorrectGuesses := by
  induction inputs generalizing s with
  | nil => exact hs
  | cons input inputs ih =>
    obtain ⟨⟨h1, -⟩, h2⟩ := hd
    refine ih (enterGuess input s) (inv_enterGuess input s hi) h2 ?_
    have hro : roundOver s = false := by rw [← hi.input]; exact h1
    simp only [roundOver, Bool.or_eq_false_iff, decide_eq_false_iff_not] at hro
    have := enterGuess_incorrectGuesses_le input s
    omega

theorem singleton_injective : Function.Injective String.singleton := by
  intro a b h
  have h2 : [a] = [b] := congrArg String.toList h
  exact List.head_eq_of_cons_eq h2

/-- In a round that is not won, the guessed letters that occur in `currentWord` are fewer
than the distinct characters of `currentWord`. -/
theorem correct_letters_lt (s : Game) (hi : Inv s) (hw : wordGuessed s = false) :
    (s.guessedLetters.filter (fun letter => includes s.currentWord letter)).length
      < s.currentWord.toList.toFinset.card := by
  have hn : ¬ ∀ c ∈ s.currentWord.toList, String.singleton c ∈ s.guessedLetters := by
    rw [← wordGuessed_iff, hw]; simp
  push_neg at hn
  obtain ⟨c0, hc0, hg0⟩ := hn
  have hnd := hi.nodup.filter (fun letter => includes s.currentWord letter)
  rw [← List.toFinset_card_of_nodup hnd,
    ← Finset.card_image_of_injective s.currentWord.toList.toFinset singleton_injective]
  apply Finset.card_lt_card
  rw [Finset.ssubset_iff_of_subset]
  · refine ⟨String.singleton c0, ?_, ?_⟩
    · exact Finset.mem_image.2 ⟨c0, List.mem_toFinset.2 hc0, rfl⟩
    · intro hm
      exact hg0 (List.mem_of_mem_filter (List.mem_toFinset.1 hm))
  · intro g hg
    have hg' := List.mem_toFinset.1 hg
    obtain ⟨hgl, hinc⟩ := List.mem_filter.1 hg'
    obtain ⟨c, rfl, -⟩ := (matchesAZ_iff g).1 (hi.letters g hgl)
    exact Finset.mem_image.2 ⟨c, List.mem_toFinset.2 ((includes_singleton _ c).1 hinc), rfl⟩

theorem length_eq_correct_add_incorrect (s : Game) :
    s.guessedLetters.length =
      (s.guessedLetters.filter (fun letter => includes s.currentWord letter)).length
        + (incorrectLetters s.currentWord s.guessedLetters).length := by
  unfold incorrectLetters
  induction s.guessedLetters with
  | nil => rfl
  | cons g gl ih =>
    by_cases h : includes s.currentWord g = true
    · simp [h, ih]; omega
    · simp [h, ih]; omega

theorem displayWord_getElem? (s : Game) (i : Nat) :
    (displayWord s).toList[i]? =
      (s.currentWord.toList[i]?).map
        (fun c => if String.singleton c ∈ s.guessedLetters then c else '_') := by
  unfold displayWord
  rw [maskLoop_eq]
  show (s.currentWord.toList.map _)[i]? = _
  rw [List.getElem?_map]
  congr 1
  funext c
  simp

theorem maskLoop_congr (w : String) (gl gl2 : List String)
    (h : ∀ c ∈ w.toList, (String.singleton c ∈ gl ↔ String.singleton c ∈ gl2)) :
    maskLoop w gl = maskLoop w gl2 := by
  rw [maskLoop_eq, maskLoop_eq]
  have h1 : w.toList.map (fun c => if gl.contains (String.singleton c) then c else '_')
      = w.toList.map (fun c => if gl2.contains (String.singleton c) then c else '_') := by
    apply List.map_congr_left
    intro c hc
    simp [h c hc]
  have h2 : w.toList.all (fun c => gl.contains (String.singleton c))
      = w.toList.all (fun c => gl2.contains (String.singleton c)) := by
    rw [Bool.eq_iff_iff]
    simp only [List.all_eq_true, List.contains_iff_exists_mem_beq, beq_iff_eq, exists_eq_right']
    constructor
    · intro hh c hc; exact (h c hc).1 (hh c hc)
    · intro hh c hc; exact (h c hc).2 (hh c hc)
  rw [h1, h2]

/-- What `handleGuess` does to the three global variables. -/
theorem enterGuess_core (input : String) (s : Game) :
    (enterGuess input s).currentWord = s.currentWord ∧
    (enterGuess input s).guessedLetters =
      (if accepts s input then s.guessedLetters ++ [toUpperCase input] else s.guessedLetters) ∧
    (enterGuess input s).incorrectGuesses =
      (if accepts s input = true ∧ includes s.currentWord (toUpperCase input) = false then
        s.incorrectGuesses + 1
      else s.incorrectGuesses) := by
  cases ha : accepts s input with
  | false =>
    obtain ⟨e1, e2, e3, -⟩ := enterGuess_rejected input s ha
    exact ⟨e3, by simpa using e1, by simpa using e2⟩
  | true =>
    obtain ⟨e1, e2, e3, -⟩ := enterGuess_accepted input s ha
    refine ⟨e3, by simpa using e1, ?_⟩
    rw [e2]
    cases includes s.currentWord (toUpperCase input) <;> simp

theorem accepts_after (a b : String) (s : Game) (h : toUpperCase a ≠ toUpperCase b) :
    accepts (enterGuess a s) b = accepts s b := by
  obtain ⟨-, e2, -⟩ := enterGuess_core a s
  have hm : toUpperCase b ∈ (enterGuess a s).guessedLetters ↔
      toUpperCase b ∈ s.guessedLetters := by
    rw [e2]
    split_ifs
    · rw [List.mem_append, List.mem_singleton]
      exact ⟨fun h1 => h1.elim id (fun h2 => absurd h2.symm h), Or.inl⟩
    · exact Iff.rfl
  rw [Bool.eq_iff_iff, accepts_iff, accepts_iff, hm]

/-- Two guesses in either order: the same counter, and the same guessed letters up to their
order. -/
theorem enterGuess_comm_core (a b : String) (s : Game) :
    (enterGuess b (enterGuess a s)).currentWord = (enterGuess a (enterGuess b s)).currentWord ∧
    (enterGuess b (enterGuess a s)).incorrectGuesses
      = (enterGuess a (enterGuess b s)).incorrectGuesses ∧
    (enterGuess b (enterGuess a s)).guessedLetters.Perm
      (enterGuess a (enterGuess b s)).guessedLetters := by
  by_cases h : toUpperCase a = toUpperCase b
  · rw [enterGuess_congr a b (enterGuess b s) h, enterGuess_congr a b s h]
    exact ⟨rfl, rfl, List.Perm.refl _⟩
  · obtain ⟨a1, a2, a3⟩ := enterGuess_core a s
    obtain ⟨b1, b2, b3⟩ := enterGuess_core b s
    obtain ⟨c1, c2, c3⟩ := enterGuess_core b (enterGuess a s)
    obtain ⟨d1, d2, d3⟩ := enterGuess_core a (enterGuess b s)
    have hab := accepts_after a b s h
    have hba := accepts_after b a s (Ne.symm h)
    rw [c1, c2, c3, d1, d2, d3, hab, hba, a1, a2, a3, b1, b2, b3]
    refine ⟨rfl, ?_, ?_⟩
    · cases accepts s a <;> cases accepts s b <;>
        cases includes s.currentWord (toUpperCase a) <;>
        cases includes s.currentWord (toUpperCase b) <;> simp
    · cases accepts s a <;> cases accepts s b <;> simp
      exact List.Perm.append_left _ (List.Perm.swap _ _ _)

theorem excessBits_pos (fuel p : Nat) (h : 0 < excessBits fuel p) : 2 ^ 53 ≤ p := by
  cases fuel with
  | zero => simp [excessBits] at h
  | succ fuel =>
    unfold excessBits at h
    by_contra hp
    rw [if_pos (Nat.lt_of_not_le hp)] at h
    exact absurd h (Nat.lt_irrefl 0)

theorem excessBits_le (fuel : Nat) : ∀ p c : Nat, p < 2 ^ (53 + c) → excessBits fuel p ≤ c := by
  induction fuel with
  | zero => intro p c _; exact Nat.zero_le _
  | succ fuel ih =>
    intro p c h
    unfold excessBits
    split_ifs with hp
    · exact Nat.zero_le _
    · cases c with
      | zero => exact absurd h hp
      | succ c =>
        have h2 : p / 2 < 2 ^ (53 + c) := by
          rw [Nat.div_lt_iff_lt_mul (by norm_num)]
          calc p < 2 ^ (53 + (c + 1)) := h
            _ = 2 ^ (53 + c) * 2 := by rw [← Nat.add_assoc, Nat.pow_succ]
        exact Nat.succ_le_succ (ih _ _ h2)

theorem roundHalfEven_zero (p : Nat) : roundHalfEven p 0 = p := by
  simp [roundHalfEven, Nat.mod_one]

theorem roundHalfEven_lt (p k N : Nat) (h : 2 * p + 2 ^ k < 2 * (N * 2 ^ k)) :
    roundHalfEven p k < N := by
  have hdm := Nat.div_add_mod p (2 ^ k)
  have hr : p % 2 ^ k < 2 ^ k := Nat.mod_lt _ (Nat.pos_pow_of_pos k (by norm_num))
  by_contra hge
  have hge' : N ≤ roundHalfEven p k := Nat.le_of_not_lt hge
  unfold roundHalfEven at hge'
  simp only at hge'
  split_ifs at hge' with h1 h2 h3
  · have := Nat.mul_le_mul_right (2 ^ k) hge'
    rw [Nat.mul_comm (p / 2 ^ k)] at this
    omega
  · have := Nat.mul_le_mul_right (2 ^ k) hge'
    rw [Nat.add_mul, Nat.mul_comm (p / 2 ^ k), Nat.one_mul] at this
    omega
  · have := Nat.mul_le_mul_right (2 ^ k) hge'
    rw [Nat.mul_comm (p / 2 ^ k)] at this
    omega
  · have := Nat.mul_le_mul_right (2 ^ k) hge'
    rw [Nat.add_mul, Nat.mul_comm (p / 2 ^ k), Nat.one_mul] at this
    omega


theorem Float64.floor_nonneg (x : Float64) : 0 ≤ x.floor := by
  unfold Float64.floor
  split_ifs <;> exact Int.natCast_nonneg _

theorem timesFive_floor_lt (m : Nat) (e : Int) (hm : m < 2 ^ 53)
    (h : m = 0 ∨ (e < 0 ∧ m < 2 ^ (-e).toNat)) :
    (Float64.timesNat ⟨m, e⟩ 5).floor < 5 := by
  rcases h with rfl | ⟨he, hlt⟩
  · have : Float64.timesNat ⟨0, e⟩ 5 = ⟨0, e⟩ := by
      simp [Float64.timesNat, excessBits, roundHalfEven_zero]
    rw [this]
    unfold Float64.floor
    split_ifs <;> simp
  · obtain ⟨t, ht⟩ : ∃ t : Nat, e = -(t : Int) := ⟨(-e).toNat, by omega⟩
    subst ht
    have htt : (- -(t : Int)).toNat = t := by omega
    rw [htt] at hlt
    have hk3 : excessBits 64 (m * 5) ≤ 3 := by
      apply excessBits_le
      have : (2 : Nat) ^ (53 + 3) = 2 ^ 53 * 8 := by norm_num
      omega
    unfold Float64.timesNat Float64.floor
    simp only
    generalize hk : excessBits 64 (m * 5) = k at hk3
    by_cases hk0 : k = 0
    · subst hk0
      have hneg : ¬ (0 : Int) ≤ -(t : Int) + ((0 : Nat) : Int) := by
        have : 0 < t := by
          rcases Nat.eq_zero_or_pos t with h0 | h0
          · subst h0; simp at he
          · exact h0
        omega
      rw [if_neg hneg, roundHalfEven_zero]
      have htn : (-(-(t : Int) + ((0 : Nat) : Int))).toNat = t := by omega
      rw [htn]
      have : m * 5 / 2 ^ t < 5 := by
        rw [Nat.div_lt_iff_lt_mul (Nat.pos_pow_of_pos t (by norm_num))]
        omega
      exact_mod_cast this
    · have hkpos : 0 < excessBits 64 (m * 5) := by rw [hk]; omega
      have hp := excessBits_pos 64 (m * 5) hkpos
      have ht51 : 51 ≤ t := by
        by_contra hc
        have h50 : t ≤ 50 := by omega
        have : (2 : Nat) ^ t ≤ 2 ^ 50 := Nat.pow_le_pow_right (by norm_num) h50
        have h53 : (2 : Nat) ^ 53 = 2 ^ 50 * 8 := by norm_num
        omega
      have hneg : ¬ (0 : Int) ≤ -(t : Int) + (k : Int) := by omega
      rw [if_neg hneg]
      have htn : (-(-(t : Int) + (k : Int))).toNat = t - k := by omega
      rw [htn]
      have hpow : 2 ^ (t - k) * 2 ^ k = 2 ^ t := by
        rw [← Nat.pow_add, Nat.sub_add_cancel (by omega)]
      have hD : 2 ^ k ≤ 8 := by
        have : (2 : Nat) ^ k ≤ 2 ^ 3 := Nat.pow_le_pow_right (by norm_num) hk3
        simpa using this
      have hlt2 : roundHalfEven (m * 5) k < 5 * 2 ^ (t - k) := by
        apply roundHalfEven_lt
        rw [Nat.mul_assoc, hpow]
        omega
      have : roundHalfEven (m * 5) k / 2 ^ (t - k) < 5 := by
        rw [Nat.div_lt_iff_lt_mul (Nat.pos_pow_of_pos _ (by norm_num))]
        exact hlt2
      exact_mod_cast this

theorem Float64.lt_one (x : Float64) (h : x.toRat < 1) :
    x.mantissa = 0 ∨ (x.exponent < 0 ∧ x.mantissa < 2 ^ (-x.exponent).toNat) := by
  unfold Float64.toRat at h
  by_cases he : 0 ≤ x.exponent
  · left
    have h1 : (1 : ℚ) ≤ (2 : ℚ) ^ x.exponent := one_le_zpow₀ (by norm_num) he
    have h2 : (x.mantissa : ℚ) < 1 := by
      have h0 : (0 : ℚ) ≤ (x.mantissa : ℚ) := Nat.cast_nonneg _
      nlinarith
    have h3 : x.mantissa < 1 := by exact_mod_cast h2
    omega
  · right
    have he' : x.exponent < 0 := by omega
    refine ⟨he', ?_⟩
    obtain ⟨t, ht⟩ : ∃ t : Nat, x.exponent = -(t : Int) := ⟨(-x.exponent).toNat, by omega⟩
    rw [ht] at h ⊢
    have htt : (- -(t : Int)).toNat = t := by omega
    rw [htt]
    rw [zpow_neg, zpow_natCast, ← div_eq_mul_inv, div_lt_one (by positivity)] at h
    exact_mod_cast h


theorem Float64.floor_eq (x : Float64) : x.floor = ⌊x.toRat⌋ := by
  unfold Float64.floor Float64.toRat
  by_cases he : 0 ≤ x.exponent
  · rw [if_pos he]
    obtain ⟨t, ht⟩ : ∃ t : Nat, x.exponent = (t : Int) := ⟨x.exponent.toNat, by omega⟩
    rw [ht, Int.toNat_natCast, zpow_natCast]
    have : (x.mantissa : ℚ) * 2 ^ t = (((x.mantissa * 2 ^ t : Nat) : Int) : ℚ) := by push_cast; ring
    rw [this, Int.floor_intCast]
  · rw [if_neg he]
    obtain ⟨t, ht⟩ : ∃ t : Nat, x.exponent = -(t : Int) := ⟨(-x.exponent).toNat, by omega⟩
    have htt : (- -(t : Int)).toNat = t := by omega
    rw [ht, htt, zpow_neg, zpow_natCast, ← div_eq_mul_inv]
    have h2 : ((2 : ℚ) ^ t) = ((2 ^ t : Nat) : ℚ) := by push_cast; rfl
    rw [h2, ← Nat.floor_div_eq_div (α := ℚ), Int.natCast_floor_eq_floor (by positivity)]


/-- The rounded quotient is within half a unit of the exact one. -/
theorem roundHalfEven_near (p k : Nat) :
    2 * (roundHalfEven p k * 2 ^ k) ≤ 2 * p + 2 ^ k ∧
    2 * p ≤ 2 * (roundHalfEven p k * 2 ^ k) + 2 ^ k := by
  have hdm := Nat.div_add_mod p (2 ^ k)
  have hr : p % 2 ^ k < 2 ^ k := Nat.mod_lt _ (Nat.pos_pow_of_pos k (by norm_num))
  unfold roundHalfEven
  simp only
  split_ifs with h1 h2 h3
  · rw [Nat.mul_comm (p / 2 ^ k)]; omega
  · rw [Nat.add_mul, Nat.mul_comm (p / 2 ^ k), Nat.one_mul]; omega
  · rw [Nat.mul_comm (p / 2 ^ k)]; omega
  · rw [Nat.add_mul, Nat.mul_comm (p / 2 ^ k), Nat.one_mul]; omega

/-- The bits dropped are exactly those beyond the 53 of a significand. -/
theorem excessBits_spec (fuel : Nat) : ∀ p : Nat, p < 2 ^ (53 + fuel) →
    p < 2 ^ (53 + excessBits fuel p) ∧
    (0 < excessBits fuel p → 2 ^ (52 + excessBits fuel p) ≤ p) := by
  induction fuel with
  | zero => intro p h; exact ⟨h, fun h0 => absurd h0 (Nat.lt_irrefl 0)⟩
  | succ fuel ih =>
    intro p h
    unfold excessBits
    split_ifs with hp
    · exact ⟨hp, fun h0 => absurd h0 (Nat.lt_irrefl 0)⟩
    · have h2 : p / 2 < 2 ^ (53 + fuel) := by
        rw [Nat.div_lt_iff_lt_mul (by norm_num)]
        calc p < 2 ^ (53 + (fuel + 1)) := h
          _ = 2 ^ (53 + fuel) * 2 := by rw [← Nat.add_assoc, Nat.pow_succ]
      obtain ⟨a, b⟩ := ih (p / 2) h2
      have e1 : 2 ^ (53 + (excessBits fuel (p / 2) + 1))
          = 2 ^ (53 + excessBits fuel (p / 2)) * 2 := by rw [← Nat.add_assoc, Nat.pow_succ]
      have e2 : 2 ^ (52 + (excessBits fuel (p / 2) + 1))
          = 2 ^ (52 + excessBits fuel (p / 2)) * 2 := by rw [← Nat.add_assoc, Nat.pow_succ]
      refine ⟨by rw [e1]; omega, fun _ => ?_⟩
      rw [e2]
      rcases Nat.eq_zero_or_pos (excessBits fuel (p / 2)) with h0 | h0
      · rw [h0]
        have : (2 : Nat) ^ 53 = 2 ^ (52 + 0) * 2 := by norm_num
        omega
      · have := b h0
        omega


/-- The product computed by `Float64.timesNat` is within half a unit in the last place of the
exact product. -/
theorem Float64.timesNat_near (x : Float64) (n : Nat) :
    2 * |(x.timesNat n).toRat - x.toRat * (n : ℚ)|
      ≤ (2 : ℚ) ^ (x.exponent + (excessBits 64 (x.mantissa * n) : Int)) := by
  obtain ⟨h1, h2⟩ := roundHalfEven_near (x.mantissa * n) (excessBits 64 (x.mantissa * n))
  unfold Float64.timesNat Float64.toRat
  simp only
  generalize excessBits 64 (x.mantissa * n) = k at h1 h2
  generalize roundHalfEven (x.mantissa * n) k = r at h1 h2
  have hpos : (0 : ℚ) < (2 : ℚ) ^ x.exponent := by positivity
  rw [zpow_add₀ (by norm_num), zpow_natCast]
  have q1 : (2 : ℚ) * ((r : ℚ) * 2 ^ k) ≤ 2 * ((x.mantissa : ℚ) * n) + 2 ^ k := by
    exact_mod_cast h1
  have q2 : (2 : ℚ) * ((x.mantissa : ℚ) * n) ≤ 2 * ((r : ℚ) * 2 ^ k) + 2 ^ k := by
    exact_mod_cast h2
  have e : (r : ℚ) * ((2 : ℚ) ^ x.exponent * 2 ^ k) - (x.mantissa : ℚ) * 2 ^ x.exponent * n
      = ((r : ℚ) * 2 ^ k - (x.mantissa : ℚ) * n) * 2 ^ x.exponent := by ring
  rw [e, abs_mul, abs_of_pos hpos]
  have habs : 2 * |(r : ℚ) * 2 ^ k - (x.mantissa : ℚ) * n| ≤ 2 ^ k := by
    have e2 : 2 * |(r : ℚ) * 2 ^ k - (x.mantissa : ℚ) * n|
        = |2 * ((r : ℚ) * 2 ^ k - (x.mantissa : ℚ) * n)| := by
      rw [abs_mul, abs_two]
    rw [e2, abs_le]
    constructor <;> linarith
  calc 2 * (|(r : ℚ) * 2 ^ k - (x.mantissa : ℚ) * n| * 2 ^ x.exponent)
      = (2 * |(r : ℚ) * 2 ^ k - (x.mantissa : ℚ) * n|) * 2 ^ x.exponent := by ring
    _ ≤ 2 ^ k * 2 ^ x.exponent := mul_le_mul_of_nonneg_right habs hpos.le
    _ = 2 ^ x.exponent * 2 ^ k := by ring


/-- The double nearest to 0.6: the rounded product is 3 and the index 3, where the exact
product is below 3 and its floor 2. -/
theorem randomIndexDouble_rounds_up :
    randomIndexDouble ⟨5404319552844595, -53⟩ = 3 ∧
    randomIndex (Float64.mk 5404319552844595 (-53)).toRat = 2 :=
  ⟨by decide, by norm_num [Float64.toRat, randomIndex, wordList]⟩

theorem initGameDouble_eq_freshRound (random : Float64) (s : Game) (entry : WordEntry)
    (h : wordListAt (randomIndexDouble random) = some entry) :
    initGameDouble random s = some (freshRound entry) := by
  simp only [initGameDouble, h, freshRound]
  rfl

theorem randomIndexDouble_range (random : Float64) (hd : random.isDouble)
    (h1 : random.toRat < 1) :
    ∃ i : Nat, i < wordList.length ∧ randomIndexDouble random = (i : Int) := by
  have hnn : 0 ≤ randomIndexDouble random := Float64.floor_nonneg _
  have hlt : randomIndexDouble random < 5 :=
    timesFive_floor_lt random.mantissa random.exponent hd.1 (Float64.lt_one random h1)
  refine ⟨(randomIndexDouble random).toNat, ?_, (Int.toNat_of_nonneg hnn).symm⟩
  have : wordList.length = 5 := rfl
  omega

theorem randomIndexDouble_onto (i : Nat) (h : i < wordList.length) :
    ∃ random : Float64, random.isDouble ∧ 0 ≤ random.toRat ∧ random.toRat < 1 ∧
      randomIndexDouble random = (i : Int) := by
  have hl : wordList.length = 5 := rfl
  rw [hl] at h
  interval_cases i
  · exact ⟨⟨0, -3⟩, by decide, by norm_num [Float64.toRat], by norm_num [Float64.toRat],
      by decide⟩
  · exact ⟨⟨2, -3⟩, by decide, by norm_num [Float64.toRat], by norm_num [Float64.toRat],
      by decide⟩
  · exact ⟨⟨4, -3⟩, by decide, by norm_num [Float64.toRat], by norm_num [Float64.toRat],
      by decide⟩
  · exact ⟨⟨5, -3⟩, by decide, by norm_num [Float64.toRat], by norm_num [Float64.toRat],
      by decide⟩
  · exact ⟨⟨7, -3⟩, by decide, by norm_num [Float64.toRat], by norm_num [Float64.toRat],
      by decide⟩

/-! ## The claims -/

/-- C1, counterexample: in the round of WEBSITE the six letters of the word are guessed, so
the round has ended (won) with `incorrectGuesses = 0`; a further call of `handleGuess` with
`Z` is not rejected: it reports an incorrect guess, appends `Z` to `guessedLetters` and
raises `incorrectGuesses` to 1. -/
theorem handleGuess_accepts_after_win :
    initGame (1 / 2) pageLoad = some websiteRound ∧
    roundOver (enterGuesses ["W", "E", "B", "S", "I", "T"] websiteRound) = true ∧
    markedEnded (enterGuesses ["W", "E", "B", "S", "I", "T"] websiteRound) ∧
    (enterGuesses ["W", "E", "B", "S", "I", "T"] websiteRound).guessedLetters
      = ["W", "E", "B", "S", "I", "T"] ∧
    (enterGuesses ["W", "E", "B", "S", "I", "T"] websiteRound).incorrectGuesses = 0 ∧
    (enterGuess "Z" (enterGuesses ["W", "E", "B", "S", "I", "T"] websiteRound)).guessedLetters
      = ["W", "E", "B", "S", "I", "T", "Z"] ∧
    (enterGuess "Z" (enterGuesses ["W", "E", "B", "S", "I", "T"] websiteRound)).incorrectGuesses
      = 1 ∧
    Call.showMessage "Incorrect guess. The letter \"Z\" is not in the word." "incorrect"
      ∈ (enterGuess "Z" (enterGuesses ["W", "E", "B", "S", "I", "T"] websiteRound)).calls :=
  ⟨initGame_half pageLoad, by decide, by decide, by decide, by decide, by decide, by decide,
    by decide⟩

/-- C1, as amended: once the round has ended (the word is fully guessed, or `incorrectGuesses`
has reached `maxIncorrectGuesses`) the guess field and the guess button are disabled and the
reset button is shown, and every further call of `handleGuess`, for every input, leaves them
so.  `handleGuess` itself has no round-over rejection: a call whose input fails the
single-letter test or repeats a guessed letter leaves `guessedLetters` and
`incorrectGuesses` as they were, and a call with a new letter appends the letter to
`guessedLetters` and adds 1 to `incorrectGuesses` when the letter is not in `currentWord`. -/
theorem handleGuess_after_round_end (s : Game) (hs : Reachable s) (hover : roundOver s = true)
    (input : String) :
    markedEnded s ∧ markedEnded (enterGuess input s) ∧
    (accepts s input = false →
      (enterGuess input s).guessedLetters = s.guessedLetters ∧
      (enterGuess input s).incorrectGuesses = s.incorrectGuesses) ∧
    (accepts s input = true →
      (enterGuess input s).guessedLetters = s.guessedLetters ++ [toUpperCase input] ∧
      (enterGuess input s).incorrectGuesses =
        (if includes s.currentWord (toUpperCase input) then s.incorrectGuesses
         else s.incorrectGuesses + 1)) := by
  have hi := inv_of_reachable s hs
  have hm : markedEnded s := ⟨by rw [hi.input, hover], by rw [hi.button, hover],
    by rw [hi.reset, hover]; rfl⟩
  refine ⟨hm, enterGuess_markedEnded input s hm, ?_, ?_⟩
  · intro ha
    obtain ⟨e1, e2, -⟩ := enterGuess_rejected input s ha
    exact ⟨e1, e2⟩
  · intro ha
    obtain ⟨e1, e2, -⟩ := enterGuess_accepted input s ha
    exact ⟨e1, e2⟩

/-- Witness of `handleGuess_after_round_end`: the won round of WEBSITE and the input `Z`. -/
theorem handleGuess_after_round_end_witness :
    Reachable (enterGuesses ["W", "E", "B", "S", "I", "T"] websiteRound) ∧
    roundOver (enterGuesses ["W", "E", "B", "S", "I", "T"] websiteRound) = true ∧
    markedEnded (enterGuess "Z" (enterGuesses ["W", "E", "B", "S", "I", "T"] websiteRound)) :=
  ⟨⟨1 / 2, pageLoad, websiteRound, _, initGame_half pageLoad, rfl⟩, by decide,
    (handleGuess_after_round_end _
      ⟨1 / 2, pageLoad, websiteRound, ["W", "E", "B", "S", "I", "T"], initGame_half pageLoad, rfl⟩
      (by decide) "Z").2.1⟩

/-- C2: after `initGame`, for every corpus word it selects and every sequence of inputs passed
to `handleGuess`, `incorrectGuesses` is the number of distinct letters of `guessedLetters`
that do not occur in `currentWord`, and it is the length of the list of incorrect letters
that `updateDisplay` renders. -/
theorem incorrectGuesses_counts_wrong_letters (random : ℚ) (s0 s1 : Game)
    (h : initGame random s0 = some s1) (inputs : List String) :
    (enterGuesses inputs s1).incorrectGuesses = (wrongLetters (enterGuesses inputs s1)).card ∧
    (enterGuesses inputs s1).incorrectGuesses
      = (incorrectLetters (enterGuesses inputs s1).currentWord
          (enterGuesses inputs s1).guessedLetters).length := by
  have hi := inv_of_initGame random s0 s1 h inputs
  exact ⟨by rw [wrongLetters_card _ hi.nodup]; exact hi.count, hi.count⟩

/-- Witness of `incorrectGuesses_counts_wrong_letters`: the round of WEBSITE with the inputs
`z`, `e`, `z`, `5`, `q`. -/
theorem incorrectGuesses_counts_wrong_letters_witness :
    initGame (1 / 2) pageLoad = some websiteRound ∧
    (enterGuesses ["z", "e", "z", "5", "q"] websiteRound).incorrectGuesses = 2 ∧
    (enterGuesses ["z", "e", "z", "5", "q"] websiteRound).incorrectGuesses
      = (wrongLetters (enterGuesses ["z", "e", "z", "5", "q"] websiteRound)).card :=
  ⟨initGame_half pageLoad, by decide,
    (incorrectGuesses_counts_wrong_letters (1 / 2) pageLoad websiteRound (initGame_half pageLoad)
      ["z", "e", "z", "5", "q"]).1⟩

/-- C3, the failing input: the single character U+0131 (dotless i) is a letter outside `A-Z`
and `a-z`, yet `handleGuess` does not reject it: `toUpperCase` turns it into `I`, which
passes the test of line 92, and the guess is accepted as the letter `I`. -/
theorem handleGuess_accepts_dotless_i :
    initGame (1 / 2) pageLoad = some websiteRound ∧
    isLetter (Char.ofNat 0x131) = false ∧
    toUpperCase (String.singleton (Char.ofNat 0x131)) = "I" ∧
    (enterGuess (String.singleton (Char.ofNat 0x131)) websiteRound).guessedLetters = ["I"] ∧
    (enterGuess (String.singleton (Char.ofNat 0x131)) websiteRound).calls
      = [Call.showMessage "Correct guess! The letter \"I\" is in the word." "correct"] ∧
    (enterGuess (String.singleton (Char.ofNat 0x131)) websiteRound).messageText
      ≠ "Please enter a single valid letter (A-Z)." :=
  ⟨initGame_half pageLoad, by decide⟩

/-- C4: for every state and every letter (`A-Z` or `a-z`), when the letter is submitted twice
in a row the second call of `handleGuess` is the rejection "You already guessed the letter",
and it changes nothing but the message: `currentWord`, `guessedLetters`, `incorrectGuesses`,
the disabled controls and every other field are as the first call left them. -/
theorem repeated_letter_already_guessed (s : Game) (c : Char) (hc : isLetter c = true) :
    enterGuess (String.singleton c) (enterGuess (String.singleton c) s) =
      { enterGuess (String.singleton c) s with
        messageText :=
          "You already guessed the letter \"" ++ toUpperCase (String.singleton c) ++ "\"."
        messageClass := "message warning"
        calls := [Call.showMessage
          ("You already guessed the letter \"" ++ toUpperCase (String.singleton c) ++ "\".")
          "warning"] } := by
  have h1 := matchesAZ_letter c hc
  have h2 := enterGuess_mem (String.singleton c) s h1
  have ha : accepts (enterGuess (String.singleton c) s) (String.singleton c) = false := by
    cases h : accepts (enterGuess (String.singleton c) s) (String.singleton c) with
    | false => rfl
    | true => exact absurd h2 ((accepts_iff _ _).1 h).2
  rw [enterGuess_rejected_eq _ _ ha]
  have hv := enterGuess_guessInputValue (String.singleton c) s
  generalize enterGuess (String.singleton c) s = s1 at hv ⊢
  cases s1
  simp only at hv
  subst hv
  simp [h1]

/-- Witness of `repeated_letter_already_guessed`: the letter `e` in the round of WEBSITE. -/
theorem repeated_letter_already_guessed_witness :
    isLetter 'e' = true ∧
    (enterGuess "e" (enterGuess "e" websiteRound)).messageText
      = "You already guessed the letter \"E\"." ∧
    (enterGuess "e" (enterGuess "e" websiteRound)).guessedLetters = ["E"] ∧
    enterGuess "e" (enterGuess "e" websiteRound) =
      { enterGuess "e" websiteRound with
        messageText := "You already guessed the letter \"E\"."
        messageClass := "message warning"
        calls := [Call.showMessage "You already guessed the letter \"E\"." "warning"] } :=
  ⟨by decide, by decide, by decide, repeated_letter_already_guessed websiteRound 'e' (by decide)⟩

/-- C5: from a fresh round, after any inputs, an accepted guess marks the round as won
(`endGame(true)` is called, which disables the controls and shows the congratulation) if and
only if, with that guess, every letter of `currentWord` is in `guessedLetters`; so the round
is never marked as won while a letter of `currentWord` is unguessed. -/
theorem won_iff_every_letter_guessed (random : ℚ) (s0 s1 : Game)
    (h : initGame random s0 = some s1) (inputs : List String) (input : String)
    (ha : accepts (enterGuesses inputs s1) input = true) :
    (Call.endGame true ∈ (enterGuess input (enterGuesses inputs s1)).calls ↔
      ∀ c ∈ (enterGuess input (enterGuesses inputs s1)).currentWord.toList,
        String.singleton c ∈ (enterGuess input (enterGuesses inputs s1)).guessedLetters) ∧
    (Call.endGame true ∈ (enterGuess input (enterGuesses inputs s1)).calls →
      markedEnded (enterGuess input (enterGuesses inputs s1)) ∧
      (enterGuess input (enterGuesses inputs s1)).messageText
        = "🎉 Congratulations! You guessed the word!") := by
  have hi := inv_enterGuess input _ (inv_of_initGame random s0 s1 h inputs)
  obtain ⟨t, ht, -, -, -, -, -, -, hc⟩ := enterGuess_accepted_eq input _ ha
  have hne := accepted_calls_no_endGame _ t input hc
  have hiff : Call.endGame true ∈ (enterGuess input (enterGuesses inputs s1)).calls ↔
      wordGuessed (enterGuess input (enterGuesses inputs s1)) = true := by
    rw [ht, endGame_true_mem_iff t hne, wordGuessed_updateDisplay]
  refine ⟨hiff.trans (wordGuessed_iff _), fun hw => ?_⟩
  have hwg := hiff.1 hw
  have hro : roundOver (enterGuess input (enterGuesses inputs s1)) = true := by
    simp [roundOver, hwg]
  refine ⟨⟨by rw [hi.input, hro], by rw [hi.button, hro], by rw [hi.reset, hro]; rfl⟩, ?_⟩
  rw [ht, updateDisplay_messageText]
  rw [ht, wordGuessed_updateDisplay] at hwg
  simp [hwg]

/-- Witness of `won_iff_every_letter_guessed`: in the round of WEBSITE, after `w`, `e`, `b`,
`x`, `s`, `i`, the guess `t` completes the word. -/
theorem won_iff_every_letter_guessed_witness :
    initGame (1 / 2) pageLoad = some websiteRound ∧
    accepts (enterGuesses ["w", "e", "b", "x", "s", "i"] websiteRound) "t" = true ∧
    Call.endGame true ∉ (enterGuesses ["w", "e", "b", "x", "s", "i"] websiteRound).calls ∧
    Call.endGame true
      ∈ (enterGuess "t" (enterGuesses ["w", "e", "b", "x", "s", "i"] websiteRound)).calls ∧
    (Call.endGame true
        ∈ (enterGuess "t" (enterGuesses ["w", "e", "b", "x", "s", "i"] websiteRound)).calls ↔
      ∀ c ∈ (enterGuess "t"
          (enterGuesses ["w", "e", "b", "x", "s", "i"] websiteRound)).currentWord.toList,
        String.singleton c ∈ (enterGuess "t"
          (enterGuesses ["w", "e", "b", "x", "s", "i"] websiteRound)).guessedLetters) :=
  ⟨initGame_half pageLoad, by decide, by decide, by decide,
    (won_iff_every_letter_guessed (1 / 2) pageLoad websiteRound (initGame_half pageLoad)
      ["w", "e", "b", "x", "s", "i"] "t" (by decide)).1⟩

/-- C6: from a fresh round, after any inputs (correct guesses included), take an accepted
guess of a letter that is not in `currentWord`, the word being incomplete after it.  With
`k` the number of distinct wrong letters guessed so far, this one included, the guess marks
the round as lost (`endGame(false)` is called) if and only if `k` has reached
`maxIncorrectGuesses` (6): after each of the first five wrong letters the controls stay
enabled and `endGame` is not called, and after the sixth the controls are disabled, the
whole word is shown and the message is "Game Over". -/
theorem lost_on_sixth_wrong_letter (random : ℚ) (s0 s1 : Game)
    (h : initGame random s0 = some s1) (inputs : List String) (input : String)
    (ha : accepts (enterGuesses inputs s1) input = true)
    (hw : includes (enterGuesses inputs s1).currentWord (toUpperCase input) = false)
    (hnc : wordGuessed (enterGuess input (enterGuesses inputs s1)) = false) :
    (wrongLetters (enterGuess input (enterGuesses inputs s1))).card
      = (wrongLetters (enterGuesses inputs s1)).card + 1 ∧
    (Call.endGame false ∈ (enterGuess input (enterGuesses inputs s1)).calls ↔
      maxIncorrectGuesses ≤ (wrongLetters (enterGuess input (enterGuesses inputs s1))).card) ∧
    ((wrongLetters (enterGuess input (enterGuesses inputs s1))).card < maxIncorrectGuesses →
      (enterGuess input (enterGuesses inputs s1)).guessInputDisabled = false ∧
      (enterGuess input (enterGuesses inputs s1)).guessButtonDisabled = false ∧
      (enterGuess input (enterGuesses inputs s1)).resetButtonDisplay = "none" ∧
      ∀ b, Call.endGame b ∉ (enterGuess input (enterGuesses inputs s1)).calls) ∧
    (maxIncorrectGuesses ≤ (wrongLetters (enterGuess input (enterGuesses inputs s1))).card →
      markedEnded (enterGuess input (enterGuesses inputs s1)) ∧
      (enterGuess input (enterGuesses inputs s1)).wordDisplayText
        = spaced (enterGuess input (enterGuesses inputs s1)).currentWord ∧
      (enterGuess input (enterGuesses inputs s1)).messageText
        = "😔 Game Over! The word was \""
          ++ (enterGuess input (enterGuesses inputs s1)).currentWord ++ "\".") := by
  have hs := inv_of_initGame random s0 s1 h inputs
  have hi := inv_enterGuess input _ hs
  obtain ⟨-, e2, -, -⟩ := enterGuess_accepted input _ ha
  obtain ⟨t, ht, tw, tg, tn, -, -, -, hc⟩ := enterGuess_accepted_eq input _ ha
  have hne := accepted_calls_no_endGame _ t input hc
  generalize enterGuesses inputs s1 = s at *
  have hk' : (wrongLetters (enterGuess input s)).card = (enterGuess input s).incorrectGuesses := by
    rw [wrongLetters_card _ hi.nodup]; exact hi.count.symm
  have hk : (wrongLetters s).card = s.incorrectGuesses := by
    rw [wrongLetters_card _ hs.nodup]; exact hs.count.symm
  have hwt : wordGuessed t = false := by
    rw [← wordGuessed_updateDisplay, ← ht]; exact hnc
  have hnt : t.incorrectGuesses = (enterGuess input s).incorrectGuesses := by
    rw [ht, updateDisplay_incorrectGuesses]
  have hcw : t.currentWord = (enterGuess input s).currentWord := by
    rw [ht, updateDisplay_currentWord]
  rw [hk', hk]
  refine ⟨by rw [e2, hw]; rfl, ?_, ?_, ?_⟩
  · rw [ht, endGame_false_mem_iff t hne, updateDisplay_incorrectGuesses]
    simp [hwt]
  · intro hlt
    have hro : roundOver (enterGuess input s) = false := by
      simp [roundOver, hnc, hlt]
    refine ⟨by rw [hi.input, hro], by rw [hi.button, hro], by rw [hi.reset, hro]; rfl, ?_⟩
    intro b
    rw [ht, updateDisplay_calls]
    have hlt' : ¬ t.incorrectGuesses ≥ maxIncorrectGuesses := by rw [hnt]; omega
    simp [hwt, hlt', hne]
  · intro hge
    have hro : roundOver (enterGuess input s) = true := by
      simp [roundOver, hge]
    have hge' : t.incorrectGuesses ≥ maxIncorrectGuesses := by rw [hnt]; exact hge
    refine ⟨⟨by rw [hi.input, hro], by rw [hi.button, hro], by rw [hi.reset, hro]; rfl⟩, ?_, ?_⟩
    · rw [← hcw, ht, updateDisplay_wordDisplayText]
      simp [hwt, hge']
    · rw [← hcw, ht, updateDisplay_messageText]
      simp [hwt, hge']

/-- Witness of `lost_on_sixth_wrong_letter`: in the round of WEBSITE, after the wrong letters
`z`, `x`, `q`, `a`, `f` and the correct letters `e`, `s`, the wrong letter `g` is the sixth. -/
theorem lost_on_sixth_wrong_letter_witness :
    initGame (1 / 2) pageLoad = some websiteRound ∧
    accepts (enterGuesses ["z", "x", "e", "q", "a", "s", "f"] websiteRound) "g" = true ∧
    (enterGuesses ["z", "x", "e", "q", "a", "s", "f"] websiteRound).guessInputDisabled = false ∧
    (enterGuess "g" (enterGuesses ["z", "x", "e", "q", "a", "s", "f"] websiteRound)).wordDisplayText
      = "W E B S I T E" ∧
    ((wrongLetters
        (enterGuess "g" (enterGuesses ["z", "x", "e", "q", "a", "s", "f"] websiteRound))).card
      = (wrongLetters (enterGuesses ["z", "x", "e", "q", "a", "s", "f"] websiteRound)).card + 1 ∧
    (Call.endGame false
        ∈ (enterGuess "g" (enterGuesses ["z", "x", "e", "q", "a", "s", "f"] websiteRound)).calls ↔
      maxIncorrectGuesses ≤ (wrongLetters
        (enterGuess "g" (enterGuesses ["z", "x", "e", "q", "a", "s", "f"] websiteRound))).card)) :=
  ⟨initGame_half pageLoad, by decide, by decide, by decide,
    ⟨(lost_on_sixth_wrong_letter (1 / 2) pageLoad websiteRound (initGame_half pageLoad)
      ["z", "x", "e", "q", "a", "s", "f"] "g" (by decide) (by decide) (by decide)).1,
    (lost_on_sixth_wrong_letter (1 / 2) pageLoad websiteRound (initGame_half pageLoad)
      ["z", "x", "e", "q", "a", "s", "f"] "g" (by decide) (by decide) (by decide)).2.1⟩⟩

/-- C7: for every prior state `s0` (whatever its round, `guessedLetters` and
`incorrectGuesses`) and every value `random` of `Math.random()` in `[0, 1)`, `initGame`
returns; the index it selects is an index of `wordList`; `guessedLetters` is empty and
`incorrectGuesses` is 0; `currentWord`, `currentHint` and the hint shown are those of the
selected entry; the guess field and the button are enabled, the field and the message are
empty and the reset button is hidden; and the resulting state is the same from every prior
state, so nothing of the previous round carries over. -/
theorem initGame_resets_round (random : ℚ) (h0 : 0 ≤ random) (h1 : random < 1) (s0 : Game) :
    ∃ (i : Nat) (entry : WordEntry) (s : Game),
      randomIndex random = (i : Int) ∧ wordList[i]? = some entry ∧
      initGame random s0 = some s ∧
      s.guessedLetters = [] ∧ s.incorrectGuesses = 0 ∧
      s.currentWord = entry.word ∧ s.currentHint = entry.hint ∧ s.hintText = entry.hint ∧
      s.guessInputDisabled = false ∧ s.guessButtonDisabled = false ∧
      s.guessInputValue = "" ∧ s.messageText = "" ∧ s.messageClass = "message" ∧
      s.resetButtonDisplay = "none" ∧
      ∀ prior : Game, initGame random prior = some s := by
  obtain ⟨i, entry, hr, hi, hm, hs⟩ := initGame_returns random h0 h1
  obtain ⟨a1, a2, a3, a4, -, a6, a7, a8⟩ := freshRound_start entry hm
  obtain ⟨b1, b2, b3, b4, -⟩ := freshRound_fields entry hm
  exact ⟨i, entry, freshRound entry, hr, hi, hs s0, a3, a4, a1, a2, b1, a6, a7, b2, b3, b4, a8, hs⟩

/-- Witness of `initGame_resets_round`: `Math.random()` returns `1/2` after a lost round. -/
theorem initGame_resets_round_witness :
    (0 : ℚ) ≤ 1 / 2 ∧ (1 / 2 : ℚ) < 1 ∧
    (enterGuesses ["z", "x", "q", "a", "f", "g"] websiteRound).incorrectGuesses = 6 ∧
    ∃ (i : Nat) (entry : WordEntry) (s : Game),
      randomIndex (1 / 2) = (i : Int) ∧ wordList[i]? = some entry ∧
      initGame (1 / 2) (enterGuesses ["z", "x", "q", "a", "f", "g"] websiteRound) = some s ∧
      s.guessedLetters = [] ∧ s.incorrectGuesses = 0 ∧
      s.currentWord = entry.word ∧ s.currentHint = entry.hint ∧ s.hintText = entry.hint ∧
      s.guessInputDisabled = false ∧ s.guessButtonDisabled = false ∧
      s.guessInputValue = "" ∧ s.messageText = "" ∧ s.messageClass = "message" ∧
      s.resetButtonDisplay = "none" ∧
      ∀ prior : Game, initGame (1 / 2) prior = some s :=
  ⟨by norm_num, by norm_num, by decide,
    initGame_resets_round (1 / 2) (by norm_num) (by norm_num)
      (enterGuesses ["z", "x", "q", "a", "f", "g"] websiteRound)⟩

/-- C8: for every value `random` of `Math.random()` in `[0, 1)`, hence for every entry
`initGame` can select, the page right after `initGame` shows a round in progress: the masked
word is made of placeholders `_` only, one for each character of `currentWord` (which has at
least one), the guesses left are `maxIncorrectGuesses` (6), the list of incorrect letters is
empty, `endGame` has not been called and the controls are enabled. -/
theorem initGame_snapshot (random : ℚ) (h0 : 0 ≤ random) (h1 : random < 1) (s0 : Game) :
    ∃ s : Game, initGame random s0 = some s ∧
      displayWord s = String.mk (List.replicate s.currentWord.length '_') ∧
      (displayWord s).length = s.currentWord.length ∧
      0 < s.currentWord.length ∧
      s.wordDisplayText = spaced (displayWord s) ∧
      s.guessesLeft = 6 ∧
      incorrectLetters s.currentWord s.guessedLetters = [] ∧
      s.guessedLettersText = "" ∧
      s.calls = [] ∧
      roundOver s = false ∧
      s.guessInputDisabled = false ∧ s.guessButtonDisabled = false ∧
      s.resetButtonDisplay = "none" := by
  obtain ⟨i, entry, hr, hi, hm, hs⟩ := initGame_returns random h0 h1
  obtain ⟨-, -, -, -, a5, a6, a7, a8⟩ := freshRound_start entry hm
  obtain ⟨-, -, -, -, b5, b6, b7, b8, b9, b10, b11⟩ := freshRound_fields entry hm
  refine ⟨freshRound entry, hs s0, b9, ?_, b11, b10, b6, b8, b7, b5, a5, a6, a7, a8⟩
  rw [b9]
  exact List.length_replicate _ _

/-- Witness of `initGame_snapshot`: `Math.random()` returns `1/2`, the round of WEBSITE. -/
theorem initGame_snapshot_witness :
    (0 : ℚ) ≤ 1 / 2 ∧ (1 / 2 : ℚ) < 1 ∧
    initGame (1 / 2) pageLoad = some websiteRound ∧
    displayWord websiteRound = "_______" ∧ websiteRound.wordDisplayText = "_ _ _ _ _ _ _" ∧
    ∃ s : Game, initGame (1 / 2) pageLoad = some s ∧
      displayWord s = String.mk (List.replicate s.currentWord.length '_') ∧
      (displayWord s).length = s.currentWord.length ∧
      0 < s.currentWord.length ∧
      s.wordDisplayText = spaced (displayWord s) ∧
      s.guessesLeft = 6 ∧
      incorrectLetters s.currentWord s.guessedLetters = [] ∧
      s.guessedLettersText = "" ∧
      s.calls = [] ∧
      roundOver s = false ∧
      s.guessInputDisabled = false ∧ s.guessButtonDisabled = false ∧
      s.resetButtonDisplay = "none" :=
  ⟨by norm_num, by norm_num, initGame_half pageLoad, by decide, by decide,
    initGame_snapshot (1 / 2) (by norm_num) (by norm_num) pageLoad⟩

/-- C9: for every word and every list of guessed letters, the masked word that the loop of
`updateDisplay` builds has as many positions as `currentWord`; at each position it holds the
character of `currentWord` at that position if that character is in `guessedLetters`, and
the placeholder `_` otherwise; the flag `wordGuessed` is set exactly when every character of
`currentWord` is in `guessedLetters`; then the masked word is `currentWord`, and, for a word
without the character `_` (as every word of letters is), only then. -/
theorem masked_word_positions (currentWord : String) (guessedLetters : List String) :
    (maskLoop currentWord guessedLetters).1.length = currentWord.length ∧
    (∀ (i : Nat) (c : Char), currentWord.toList[i]? = some c →
      (maskLoop currentWord guessedLetters).1.toList[i]?
        = some (if String.singleton c ∈ guessedLetters then c else '_')) ∧
    ((maskLoop currentWord guessedLetters).2 = true ↔
      ∀ c ∈ currentWord.toList, String.singleton c ∈ guessedLetters) ∧
    ((∀ c ∈ currentWord.toList, String.singleton c ∈ guessedLetters) →
      (maskLoop currentWord guessedLetters).1 = currentWord) ∧
    ('_' ∉ currentWord.toList → (maskLoop currentWord guessedLetters).1 = currentWord →
      ∀ c ∈ currentWord.toList, String.singleton c ∈ guessedLetters) := by
  rw [maskLoop_eq]
  refine ⟨?_, ?_, ?_, ?_, ?_⟩
  · exact List.length_map _ _
  · intro i c hc
    show (currentWord.toList.map _)[i]? = _
    rw [List.getElem?_map, hc]
    simp
  · simp
  · intro hall
    have : currentWord.toList.map
        (fun c => if guessedLetters.contains (String.singleton c) then c else '_')
        = currentWord.toList := by
      conv_rhs => rw [← List.map_id currentWord.toList]
      apply List.map_congr_left
      intro c hc
      simp [hall c hc]
    simp only [this]
    rfl
  · intro hu heq
    have h2 : currentWord.toList.map
        (fun c => if guessedLetters.contains (String.singleton c) then c else '_')
        = currentWord.toList := congrArg String.toList heq
    exact (map_mask_eq_self_iff guessedLetters _ hu).1 h2

/-- Witness of `masked_word_positions`: the word CAT with the guessed letters `C` and `Z`. -/
theorem masked_word_positions_witness :
    '_' ∉ "CAT".toList ∧ maskLoop "CAT" ["C", "Z"] = ("C__", false) ∧
    maskLoop "CAT" ["T", "A", "C"] = ("CAT", true) ∧
    ((maskLoop "CAT" ["T", "A", "C"]).1 = "CAT" →
      ∀ c ∈ "CAT".toList, String.singleton c ∈ ["T", "A", "C"]) :=
  ⟨by decide, by decide, by decide,
    (masked_word_positions "CAT" ["T", "A", "C"]).2.2.2.2 (by decide)⟩

/-- C10: for every state and every accepted guess (an input whose upper-case form is one
letter `A-Z` that is not yet in `guessedLetters`), `handleGuess` appends exactly that
upper-case letter to `guessedLetters`; the first message it shows is "Correct guess" if the
letter occurs in `currentWord` and "Incorrect guess" if it does not; a correct guess leaves
`incorrectGuesses` as it was and an incorrect guess adds exactly 1 to it. -/
theorem accepted_guess_outcome (s : Game) (input : String) (ha : accepts s input = true) :
    (∃ c : Char, toUpperCase input = String.singleton c ∧ 'A' ≤ c ∧ c ≤ 'Z' ∧
      (includes s.currentWord (toUpperCase input) = true ↔ c ∈ s.currentWord.toList)) ∧
    (enterGuess input s).guessedLetters = s.guessedLetters ++ [toUpperCase input] ∧
    (includes s.currentWord (toUpperCase input) = true →
      (enterGuess input s).calls.head? = some (Call.showMessage
        ("Correct guess! The letter \"" ++ toUpperCase input ++ "\" is in the word.") "correct") ∧
      (enterGuess input s).incorrectGuesses = s.incorrectGuesses) ∧
    (includes s.currentWord (toUpperCase input) = false →
      (enterGuess input s).calls.head? = some (Call.showMessage
        ("Incorrect guess. The letter \"" ++ toUpperCase input ++ "\" is not in the word.")
        "incorrect") ∧
      (enterGuess input s).incorrectGuesses = s.incorrectGuesses + 1) ∧
    ((enterGuess input s).calls.head? = some (Call.showMessage
        ("Correct guess! The letter \"" ++ toUpperCase input ++ "\" is in the word.") "correct") ↔
      includes s.currentWord (toUpperCase input) = true) := by
  obtain ⟨h1, h2⟩ := (accepts_iff s input).1 ha
  obtain ⟨e1, e2, -, -⟩ := enterGuess_accepted input s ha
  obtain ⟨t, ht, -, -, -, -, -, -, hc⟩ := enterGuess_accepted_eq input s ha
  have hcalls : (enterGuess input s).calls.head? = some
      (if includes s.currentWord (toUpperCase input) then
          Call.showMessage ("Correct guess! The letter \"" ++ toUpperCase input ++ "\" is in the word.")
            "correct"
        else
          Call.showMessage
            ("Incorrect guess. The letter \"" ++ toUpperCase input ++ "\" is not in the word.")
            "incorrect") := by
    rw [ht, updateDisplay_calls, hc]
    rfl
  refine ⟨?_, e1, ?_, ?_, ?_⟩
  · unfold matchesAZ at h1
    rcases hu : toUpperCase input with ⟨l⟩
    rw [hu] at h1
    match l, h1 with
    | [c], h1 =>
      simp only [String.toList, decide_eq_true_eq] at h1
      exact ⟨c, rfl, h1.1, h1.2, includes_singleton _ c⟩
    | [], h1 => simp [String.toList] at h1
    | _ :: _ :: _, h1 => simp [String.toList] at h1
  · intro hin
    rw [hcalls, e2, hin]
    exact ⟨rfl, rfl⟩
  · intro hin
    rw [hcalls, e2, hin]
    exact ⟨rfl, rfl⟩
  · rw [hcalls]
    cases hin : includes s.currentWord (toUpperCase input) with
    | true => simp
    | false =>
      simp only [Bool.false_eq_true, if_false, Option.some.injEq, Call.showMessage.injEq,
        iff_false, not_and]
      intro _
      decide

/-- Witness of `accepted_guess_outcome`: the inputs `e` and `z` in the round of WEBSITE. -/
theorem accepted_guess_outcome_witness :
    accepts websiteRound "e" = true ∧
    (enterGuess "e" websiteRound).guessedLetters = ["E"] ∧
    (enterGuess "e" websiteRound).incorrectGuesses = 0 ∧
    (enterGuess "z" websiteRound).guessedLetters = ["Z"] ∧
    (enterGuess "z" websiteRound).incorrectGuesses = 1 ∧
    (enterGuess "e" websiteRound).guessedLetters
      = websiteRound.guessedLetters ++ [toUpperCase "e"] :=
  ⟨by decide, by decide, by decide, by decide, by decide,
    (accepted_guess_outcome websiteRound "e" (by decide)).2.1⟩

/-- C12: in every state reached from `initGame` by any sequence of `handleGuess` calls with
arbitrary inputs, `guessedLetters` holds no letter twice and every element of it is a string
of exactly one upper-case letter `A-Z`. -/
theorem guessedLetters_distinct_uppercase (random : ℚ) (s0 s1 : Game)
    (h : initGame random s0 = some s1) (inputs : List String) :
    (enterGuesses inputs s1).guessedLetters.Nodup ∧
    ∀ g ∈ (enterGuesses inputs s1).guessedLetters,
      ∃ c : Char, g = String.singleton c ∧ 'A' ≤ c ∧ c ≤ 'Z' := by
  have hi := inv_of_initGame random s0 s1 h inputs
  exact ⟨hi.nodup, fun g hg => (matchesAZ_iff g).1 (hi.letters g hg)⟩

/-- Witness of `guessedLetters_distinct_uppercase`: the round of WEBSITE with the inputs `e`,
`E`, `42`, `z`, `e`, `Z`. -/
theorem guessedLetters_distinct_uppercase_witness :
    initGame (1 / 2) pageLoad = some websiteRound ∧
    (enterGuesses ["e", "E", "42", "z", "e", "Z"] websiteRound).guessedLetters = ["E", "Z"] ∧
    (enterGuesses ["e", "E", "42", "z", "e", "Z"] websiteRound).guessedLetters.Nodup :=
  ⟨initGame_half pageLoad, by decide,
    (guessedLetters_distinct_uppercase (1 / 2) pageLoad websiteRound (initGame_half pageLoad)
      ["e", "E", "42", "z", "e", "Z"]).1⟩

/-- C13: for every state and every letter `A-Z`, `handleGuess` run on the lower-case form of
the letter leaves exactly the state it leaves when run on the upper-case form: the same
acceptance or rejection, the same messages and calls, the same `guessedLetters`,
`incorrectGuesses` and controls. -/
theorem lowercase_same_as_uppercase (s : Game) (u : Char) (hu : 'A' ≤ u ∧ u ≤ 'Z') :
    ('a' ≤ u.toLower ∧ u.toLower ≤ 'z') ∧
    toUpperCase (String.singleton u.toLower) = String.singleton u ∧
    toUpperCase (String.singleton u) = String.singleton u ∧
    accepts s (String.singleton u.toLower) = accepts s (String.singleton u) ∧
    enterGuess (String.singleton u.toLower) s = enterGuess (String.singleton u) s := by
  obtain ⟨h1, h2, h3⟩ := toUpperCase_toLower u hu
  have e1 : toUpperCase (String.singleton u.toLower) = String.singleton u := by
    rw [toUpperCase_singleton, h3]
  have e2 : toUpperCase (String.singleton u) = String.singleton u := by
    rw [toUpperCase_singleton, upperCodePoint_upper u hu]
  refine ⟨⟨h1, h2⟩, e1, e2, ?_, enterGuess_congr _ _ s (e1.trans e2.symm)⟩
  simp only [accepts, e1, e2]

/-- Witness of `lowercase_same_as_uppercase`: the letter `E` in the round of WEBSITE. -/
theorem lowercase_same_as_uppercase_witness :
    ('A' ≤ 'E' ∧ 'E' ≤ 'Z') ∧ 'E'.toLower = 'e' ∧
    (enterGuess "e" websiteRound).guessedLetters = ["E"] ∧
    enterGuess (String.singleton 'E'.toLower) websiteRound
      = enterGuess (String.singleton 'E') websiteRound :=
  ⟨by decide, by decide, by decide,
    (lowercase_same_as_uppercase websiteRound 'E' (by decide)).2.2.2.2⟩

/-- C15: `wordList` is not empty and the word of every entry is not empty and consists of
upper-case letters `A-Z` only; so for every value `random` of `Math.random()` in `[0, 1)`
`initGame` returns, and `currentWord` after any `initGame` is not empty and contains only
letters `A-Z`. -/
theorem corpus_words_uppercase :
    wordList ≠ [] ∧
    (∀ entry ∈ wordList, 0 < entry.word.length ∧
      ∀ c ∈ entry.word.toList, 'A' ≤ c ∧ c ≤ 'Z') ∧
    (∀ (random : ℚ) (s0 : Game), 0 ≤ random → random < 1 →
      ∃ s : Game, initGame random s0 = some s) ∧
    (∀ (random : ℚ) (s0 s : Game), initGame random s0 = some s →
      0 < s.currentWord.length ∧ ∀ c ∈ s.currentWord.toList, 'A' ≤ c ∧ c ≤ 'Z') := by
  refine ⟨wordList_words.1, fun entry he => (wordList_words.2 entry he).2, ?_, ?_⟩
  · intro random s0 h0 h1
    obtain ⟨i, entry, -, -, -, hs⟩ := initGame_returns random h0 h1
    exact ⟨_, hs s0⟩
  · intro random s0 s hs
    obtain ⟨entry, he, -, rfl⟩ := initGame_some random s0 s hs
    rw [(freshRound_start entry he).1]
    exact (wordList_words.2 entry he).2

/-- Witness of `corpus_words_uppercase`: `Math.random()` returns `1/2` and the word is
WEBSITE. -/
theorem corpus_words_uppercase_witness :
    initGame (1 / 2) pageLoad = some websiteRound ∧ websiteRound.currentWord = "WEBSITE" ∧
    0 < websiteRound.currentWord.length ∧
    ∀ c ∈ websiteRound.currentWord.toList, 'A' ≤ c ∧ c ≤ 'Z' :=
  ⟨initGame_half pageLoad, by decide,
    corpus_words_uppercase.2.2.2 (1 / 2) pageLoad websiteRound (initGame_half pageLoad)⟩

/-- C16: for every double `random` with `0 ≤ random < 1`, as `Math.random()` returns, the index
`Math.floor(random * wordList.length)` that line 43 computes in double arithmetic is the
floor of the rounded product, is at least 0 and less than `wordList.length`, so
`wordList[randomIndex]` is an entry of the corpus and `initGame` returns, starting the round
of that entry, which is also a round that `initGame` starts for an exact value in `[0, 1)`;
and every index below `wordList.length` is the index computed for some such double.  The
same holds when `random` is any exact rational in `[0, 1)` and the product is not rounded. -/
theorem randomIndex_in_range :
    (∀ random : Float64, random.isDouble → random.toRat < 1 →
      randomIndexDouble random = ⌊(random.timesNat wordList.length).toRat⌋ ∧
      0 ≤ randomIndexDouble random ∧ randomIndexDouble random < (wordList.length : Int) ∧
      ∃ entry ∈ wordList, wordListAt (randomIndexDouble random) = some entry ∧
        (∀ s0 : Game, initGameDouble random s0 = some (freshRound entry)) ∧
        ∃ exact : ℚ, 0 ≤ exact ∧ exact < 1 ∧
          ∀ s0 : Game, initGame exact s0 = initGameDouble random s0) ∧
    (∀ i : Nat, i < wordList.length →
      ∃ random : Float64, random.isDouble ∧ 0 ≤ random.toRat ∧ random.toRat < 1 ∧
        randomIndexDouble random = (i : Int)) ∧
    (∀ random : ℚ, 0 ≤ random → random < 1 →
      0 ≤ randomIndex random ∧ randomIndex random < (wordList.length : Int) ∧
      (∃ entry ∈ wordList, wordListAt (randomIndex random) = some entry) ∧
      ∀ s0 : Game, ∃ s : Game, initGame random s0 = some s) ∧
    (∀ i : Nat, i < wordList.length →
      ∃ random : ℚ, 0 ≤ random ∧ random < 1 ∧ randomIndex random = (i : Int)) := by
  refine ⟨?_, randomIndexDouble_onto, ?_, ?_⟩
  · intro random hd h1
    obtain ⟨i, hi, hr⟩ := randomIndexDouble_range random hd h1
    have hw : wordListAt (randomIndexDouble random) = some wordList[i] := by
      rw [hr]
      simp [wordListAt, List.getElem?_eq_getElem hi]
    have hs : ∀ s0 : Game, initGameDouble random s0 = some (freshRound wordList[i]) :=
      fun s0 => initGameDouble_eq_freshRound random s0 _ hw
    obtain ⟨e0, e1, e2⟩ := randomIndex_onto i hi
    refine ⟨Float64.floor_eq _, by rw [hr]; exact Int.natCast_nonneg i,
      by rw [hr]; exact_mod_cast hi, wordList[i], List.getElem_mem _, hw, hs,
      (i : ℚ) / 5, e0, e1, fun s0 => ?_⟩
    rw [hs s0]
    apply initGame_eq_freshRound
    rw [e2]
    simp [wordListAt, List.getElem?_eq_getElem hi]
  · intro random h0 h1
    obtain ⟨i, hi, hr⟩ := randomIndex_range random h0 h1
    obtain ⟨j, entry, hj, he, hm, hs⟩ := initGame_returns random h0 h1
    refine ⟨by rw [hr]; exact Int.natCast_nonneg i, by rw [hr]; exact_mod_cast hi,
      ⟨entry, hm, ?_⟩, fun s0 => ⟨_, hs s0⟩⟩
    rw [hj]
    simpa [wordListAt] using he
  · intro i hi
    exact ⟨(i : ℚ) / 5, randomIndex_onto i hi⟩

/-- Witness of `randomIndex_in_range`: the double nearest to 0.6, `5404319552844595 / 2^53`.
The exact product is `3 - 2^-53`, which rounds to 3, so the index is 3. -/
theorem randomIndex_in_range_witness :
    (Float64.mk 5404319552844595 (-53)).isDouble ∧
    (Float64.mk 5404319552844595 (-53)).toRat < 1 ∧
    Float64.timesNat ⟨5404319552844595, -53⟩ wordList.length = ⟨6755399441055744, -51⟩ ∧
    randomIndexDouble ⟨5404319552844595, -53⟩ = 3 ∧
    0 ≤ randomIndexDouble ⟨5404319552844595, -53⟩ ∧
    randomIndexDouble ⟨5404319552844595, -53⟩ < (wordList.length : Int) :=
  ⟨by decide, by norm_num [Float64.toRat], by decide, by decide,
    (randomIndex_in_range.1 ⟨5404319552844595, -53⟩ (by decide)
      (by norm_num [Float64.toRat])).2.1,
    (randomIndex_in_range.1 ⟨5404319552844595, -53⟩ (by decide)
      (by norm_num [Float64.toRat])).2.2.1⟩

/-- C11: in every state reached from `initGame` by any sequence of `handleGuess` calls, the
round is marked as ended (guess field and guess button disabled, reset button shown) if and
only if every letter of `currentWord` is in `guessedLetters` or `incorrectGuesses` has
reached `maxIncorrectGuesses`, and otherwise the controls are enabled, the reset button is
hidden and `endGame` has not been called; the latest call of `endGame` is `endGame(true)`
(won) exactly when every letter of `currentWord` is guessed, and `endGame(false)` (lost)
exactly when `incorrectGuesses >= maxIncorrectGuesses` and the word is not fully guessed. -/
theorem ended_iff_won_or_lost (random : ℚ) (s0 s1 : Game)
    (h : initGame random s0 = some s1) (inputs : List String) :
    (markedEnded (enterGuesses inputs s1) ↔
      (∀ c ∈ (enterGuesses inputs s1).currentWord.toList,
        String.singleton c ∈ (enterGuesses inputs s1).guessedLetters) ∨
      maxIncorrectGuesses ≤ (enterGuesses inputs s1).incorrectGuesses) ∧
    (¬ markedEnded (enterGuesses inputs s1) →
      (enterGuesses inputs s1).guessInputDisabled = false ∧
      (enterGuesses inputs s1).guessButtonDisabled = false ∧
      (enterGuesses inputs s1).resetButtonDisplay = "none" ∧
      endGameAfter inputs s1 (lastEndGame none s1.calls) = none) ∧
    (endGameAfter inputs s1 (lastEndGame none s1.calls) = some true ↔
      ∀ c ∈ (enterGuesses inputs s1).currentWord.toList,
        String.singleton c ∈ (enterGuesses inputs s1).guessedLetters) ∧
    (endGameAfter inputs s1 (lastEndGame none s1.calls) = some false ↔
      maxIncorrectGuesses ≤ (enterGuesses inputs s1).incorrectGuesses ∧
      ¬ ∀ c ∈ (enterGuesses inputs s1).currentWord.toList,
        String.singleton c ∈ (enterGuesses inputs s1).guessedLetters) := by
  have hi := inv_of_initGame random s0 s1 h inputs
  obtain ⟨entry, he, -, rfl⟩ := initGame_some random s0 s1 h
  have hm := endGameAfter_eq inputs (freshRound entry) _ (freshRound_noEndGame entry he)
  rw [hm]
  generalize enterGuesses inputs (freshRound entry) = s at hi ⊢
  have hme : markedEnded s ↔ roundOver s = true := by
    unfold markedEnded
    rw [hi.input, hi.button, hi.reset]
    cases roundOver s <;> simp
  have hw := wordGuessed_iff s
  refine ⟨hme.trans (roundOver_iff s), ?_, ?_, ?_⟩
  · intro hn
    have hro : roundOver s = false := by
      cases hr : roundOver s with
      | false => rfl
      | true => exact absurd (hme.2 hr) hn
    refine ⟨by rw [hi.input, hro], by rw [hi.button, hro], by rw [hi.reset, hro]; rfl, ?_⟩
    simp only [roundOver, Bool.or_eq_false_iff, decide_eq_false_iff_not] at hro
    simp [hro.1, hro.2]
  · rw [← hw]
    by_cases h1 : wordGuessed s = true
    · simp [h1]
    · by_cases h2 : s.incorrectGuesses ≥ maxIncorrectGuesses <;> simp [h1, h2]
  · rw [← hw]
    by_cases h1 : wordGuessed s = true
    · simp [h1]
    · by_cases h2 : s.incorrectGuesses ≥ maxIncorrectGuesses
      · simp [h1, h2]
      · simp [h1, h2]

/-- Witness of `ended_iff_won_or_lost`: the round of WEBSITE lost by six wrong letters. -/
theorem ended_iff_won_or_lost_witness :
    initGame (1 / 2) pageLoad = some websiteRound ∧
    markedEnded (enterGuesses ["z", "x", "q", "a", "f", "g"] websiteRound) ∧
    endGameAfter ["z", "x", "q", "a", "f", "g"] websiteRound
      (lastEndGame none websiteRound.calls) = some false ∧
    (endGameAfter ["z", "x", "q", "a", "f", "g"] websiteRound
        (lastEndGame none websiteRound.calls) = some false ↔
      maxIncorrectGuesses
        ≤ (enterGuesses ["z", "x", "q", "a", "f", "g"] websiteRound).incorrectGuesses ∧
      ¬ ∀ c ∈ (enterGuesses ["z", "x", "q", "a", "f", "g"] websiteRound).currentWord.toList,
        String.singleton c
          ∈ (enterGuesses ["z", "x", "q", "a", "f", "g"] websiteRound).guessedLetters) :=
  ⟨initGame_half pageLoad, by decide, by decide,
    (ended_iff_won_or_lost (1 / 2) pageLoad websiteRound (initGame_half pageLoad)
      ["z", "x", "q", "a", "f", "g"]).2.2.2⟩

/-- C14: in every state reached from `initGame`, when the round is lost (`incorrectGuesses`
has reached `maxIncorrectGuesses` and the word is not fully guessed) the word shown is the
complete `currentWord`, which differs from the masked word; in every other state the word
shown is the masked word, so the reveal of line 137 shows only when the round is lost; while
the round is in progress the word shown contains at least one placeholder; and an accepted
guess that calls `endGame(false)` leaves the complete word shown. -/
theorem lost_round_reveals_word (random : ℚ) (s0 s1 : Game)
    (h : initGame random s0 = some s1) (inputs : List String) :
    (wordGuessed (enterGuesses inputs s1) = false ∧
        maxIncorrectGuesses ≤ (enterGuesses inputs s1).incorrectGuesses →
      (enterGuesses inputs s1).wordDisplayText = spaced (enterGuesses inputs s1).currentWord ∧
      displayWord (enterGuesses inputs s1) ≠ (enterGuesses inputs s1).currentWord) ∧
    (¬ (wordGuessed (enterGuesses inputs s1) = false ∧
        maxIncorrectGuesses ≤ (enterGuesses inputs s1).incorrectGuesses) →
      (enterGuesses inputs s1).wordDisplayText
        = spaced (displayWord (enterGuesses inputs s1))) ∧
    (roundOver (enterGuesses inputs s1) = false →
      (enterGuesses inputs s1).wordDisplayText = spaced (displayWord (enterGuesses inputs s1)) ∧
      '_' ∈ (enterGuesses inputs s1).wordDisplayText.toList) ∧
    (∀ input : String, accepts (enterGuesses inputs s1) input = true →
      Call.endGame false ∈ (enterGuess input (enterGuesses inputs s1)).calls →
      (enterGuess input (enterGuesses inputs s1)).wordDisplayText
        = spaced (enterGuess input (enterGuesses inputs s1)).currentWord) := by
  have hi := inv_of_initGame random s0 s1 h inputs
  have hd := invDisplay_of_initGame random s0 s1 h inputs
  generalize enterGuesses inputs s1 = s at hi hd ⊢
  refine ⟨?_, ?_, ?_, ?_⟩
  · intro hl
    refine ⟨by rw [hd.display, if_pos hl], ?_⟩
    intro heq
    have hp := placeholder_mem_displayWord s hl.1
    rw [heq] at hp
    exact word_no_placeholder s hi hp
  · intro hl
    rw [hd.display, if_neg hl]
  · intro hro
    simp only [roundOver, Bool.or_eq_false_iff, decide_eq_false_iff_not] at hro
    have hl : ¬ (wordGuessed s = false ∧ maxIncorrectGuesses ≤ s.incorrectGuesses) :=
      fun hl => hro.2 hl.2
    have e : s.wordDisplayText = spaced (displayWord s) := by rw [hd.display, if_neg hl]
    refine ⟨e, ?_⟩
    rw [e]
    exact mem_intersperse_of_mem ' ' '_' _ (placeholder_mem_displayWord s hro.1)
  · intro input ha hc
    obtain ⟨t, ht, -, -, -, -, -, -, hcalls⟩ := enterGuess_accepted_eq input s ha
    have hne := accepted_calls_no_endGame s t input hcalls
    rw [ht] at hc ⊢
    obtain ⟨hw, hn⟩ := (endGame_false_mem_iff t hne).1 hc
    rw [updateDisplay_wordDisplayText, updateDisplay_currentWord]
    simp [hw, hn]

/-- Witness of `lost_round_reveals_word`: the round of WEBSITE lost by six wrong letters,
with `e` guessed in between. -/
theorem lost_round_reveals_word_witness :
    initGame (1 / 2) pageLoad = some websiteRound ∧
    (enterGuesses ["z", "x", "e", "q", "a", "f"] websiteRound).wordDisplayText
      = "_ E _ _ _ _ E" ∧
    displayWord (enterGuesses ["z", "x", "e", "q", "a", "f", "g"] websiteRound) = "_E____E" ∧
    (wordGuessed (enterGuesses ["z", "x", "e", "q", "a", "f", "g"] websiteRound) = false ∧
      maxIncorrectGuesses
        ≤ (enterGuesses ["z", "x", "e", "q", "a", "f", "g"] websiteRound).incorrectGuesses) ∧
    (enterGuesses ["z", "x", "e", "q", "a", "f", "g"] websiteRound).wordDisplayText
      = spaced (enterGuesses ["z", "x", "e", "q", "a", "f", "g"] websiteRound).currentWord ∧
    (enterGuesses ["z", "x", "e", "q", "a", "f", "g"] websiteRound).wordDisplayText
      = "W E B S I T E" :=
  ⟨initGame_half pageLoad, by decide, by decide, by decide,
    ((lost_round_reveals_word (1 / 2) pageLoad websiteRound (initGame_half pageLoad)
      ["z", "x", "e", "q", "a", "f", "g"]).1 (by decide)).1, by decide⟩

/-- C17, counterexample: in the round of WEBSITE six wrong letters end the round as lost with
`incorrectGuesses = 6`; `handleGuess` called once more, with the new wrong letter `h`,
raises `incorrectGuesses` to 7, above `maxIncorrectGuesses`, and the guesses left shown
become -1. -/
theorem incorrectGuesses_exceeds_max_after_loss :
    initGame (1 / 2) pageLoad = some websiteRound ∧
    (enterGuesses ["z", "x", "q", "a", "f", "g"] websiteRound).incorrectGuesses = 6 ∧
    markedEnded (enterGuesses ["z", "x", "q", "a", "f", "g"] websiteRound) ∧
    (enterGuesses ["z", "x", "q", "a", "f", "g", "h"] websiteRound).incorrectGuesses = 7 ∧
    maxIncorrectGuesses
      < (enterGuesses ["z", "x", "q", "a", "f", "g", "h"] websiteRound).incorrectGuesses ∧
    (enterGuesses ["z", "x", "q", "a", "f", "g", "h"] websiteRound).guessesLeft = -1 :=
  ⟨initGame_half pageLoad, by decide, by decide, by decide, by decide, by decide⟩

/-- C17, as amended: in every state reached from `initGame` by `handleGuess` calls that are
each made while the guess field and the guess button are enabled (the calls the page
dispatches, since `endGame` disables both controls), `incorrectGuesses` never exceeds
`maxIncorrectGuesses`, and the guesses left that `updateDisplay` renders,
`maxIncorrectGuesses - incorrectGuesses`, are between 0 and 6. -/
theorem incorrectGuesses_le_max_when_dispatched (random : ℚ) (s0 s1 : Game)
    (h : initGame random s0 = some s1) (inputs : List String) (hd : dispatched inputs s1) :
    (enterGuesses inputs s1).incorrectGuesses ≤ maxIncorrectGuesses ∧
    (enterGuesses inputs s1).guessesLeft
      = (maxIncorrectGuesses : Int) - ((enterGuesses inputs s1).incorrectGuesses : Int) ∧
    0 ≤ (enterGuesses inputs s1).guessesLeft ∧ (enterGuesses inputs s1).guessesLeft ≤ 6 := by
  have hl := (invDisplay_of_initGame random s0 s1 h inputs).left
  obtain ⟨entry, he, -, rfl⟩ := initGame_some random s0 s1 h
  have hle := dispatched_incorrectGuesses_le inputs (freshRound entry) (inv_freshRound entry he) hd
    (by rw [(freshRound_start entry he).2.2.2.1]; exact Nat.zero_le _)
  have hm : (maxIncorrectGuesses : Int) = 6 := rfl
  refine ⟨hle, hl, ?_, ?_⟩
  · rw [hl]; omega
  · rw [hl, hm]; omega

/-- Witness of `incorrectGuesses_le_max_when_dispatched`: the round of WEBSITE with six
wrong letters, each entered while the controls are enabled. -/
theorem incorrectGuesses_le_max_when_dispatched_witness :
    initGame (1 / 2) pageLoad = some websiteRound ∧
    dispatched ["z", "x", "q", "a", "f", "g"] websiteRound ∧
    ¬ dispatched ["z", "x", "q", "a", "f", "g", "h"] websiteRound ∧
    (enterGuesses ["z", "x", "q", "a", "f", "g"] websiteRound).guessesLeft = 0 ∧
    (enterGuesses ["z", "x", "q", "a", "f", "g"] websiteRound).incorrectGuesses
      ≤ maxIncorrectGuesses :=
  ⟨initGame_half pageLoad, by simp only [dispatched]; decide, by simp only [dispatched]; decide,
    by decide,
    (incorrectGuesses_le_max_when_dispatched (1 / 2) pageLoad websiteRound
      (initGame_half pageLoad) ["z", "x", "q", "a", "f", "g"]
      (by simp only [dispatched]; decide)).1⟩

/-- C18: in every state reached from `initGame` in which the round is still in progress, the
number of guessed letters is at most `(d - 1) + (maxIncorrectGuesses - 1)`, where `d` (at
least 1) is the number of distinct letters of `currentWord`; hence once `d + 5` guesses have
been accepted the round has ended, won or lost, and is marked so. -/
theorem round_ends_within_bound (random : ℚ) (s0 s1 : Game)
    (h : initGame random s0 = some s1) (inputs : List String) :
    0 < (enterGuesses inputs s1).currentWord.toList.toFinset.card ∧
    (roundOver (enterGuesses inputs s1) = false →
      (enterGuesses inputs s1).guessedLetters.length
        ≤ ((enterGuesses inputs s1).currentWord.toList.toFinset.card - 1)
          + (maxIncorrectGuesses - 1)) ∧
    ((enterGuesses inputs s1).currentWord.toList.toFinset.card + 5
        ≤ (enterGuesses inputs s1).guessedLetters.length →
      roundOver (enterGuesses inputs s1) = true ∧ markedEnded (enterGuesses inputs s1) ∧
      (wordGuessed (enterGuesses inputs s1) = true ∨
        maxIncorrectGuesses ≤ (enterGuesses inputs s1).incorrectGuesses)) := by
  have hi := inv_of_initGame random s0 s1 h inputs
  generalize enterGuesses inputs s1 = s at hi ⊢
  have hm : maxIncorrectGuesses = 6 := rfl
  have hpos : 0 < s.currentWord.toList.toFinset.card := by
    obtain ⟨entry, he, hw, -⟩ := hi.word
    obtain ⟨hlen, -⟩ := (wordList_words.2 entry he).2
    rw [hw, Finset.card_pos]
    cases hl : entry.word.toList with
    | nil =>
      have : entry.word.length = 0 := by
        show entry.word.toList.length = 0
        rw [hl]; rfl
      omega
    | cons c l => exact ⟨c, by simp⟩
  have hbound : roundOver s = false →
      s.guessedLetters.length ≤ (s.currentWord.toList.toFinset.card - 1)
        + (maxIncorrectGuesses - 1) := by
    intro hro
    simp only [roundOver, Bool.or_eq_false_iff, decide_eq_false_iff_not] at hro
    have h1 := correct_letters_lt s hi hro.1
    have h2 := hi.count
    have h3 := length_eq_correct_add_incorrect s
    omega
  refine ⟨hpos, hbound, ?_⟩
  intro hge
  have hro : roundOver s = true := by
    cases hr : roundOver s with
    | true => rfl
    | false =>
      have := hbound hr
      omega
  refine ⟨hro, ⟨by rw [hi.input, hro], by rw [hi.button, hro], by rw [hi.reset, hro]; rfl⟩, ?_⟩
  simpa [roundOver] using hro

/-- Witness of `round_ends_within_bound`: the round of WEBSITE (6 distinct letters) is in
progress after 10 accepted guesses and has ended after the 11th. -/
theorem round_ends_within_bound_witness :
    initGame (1 / 2) pageLoad = some websiteRound ∧
    websiteRound.currentWord.toList.toFinset.card = 6 ∧
    roundOver (enterGuesses ["w", "e", "b", "s", "i", "z", "x", "q", "a", "f"] websiteRound)
      = false ∧
    (enterGuesses ["w", "e", "b", "s", "i", "z", "x", "q", "a", "f"]
      websiteRound).guessedLetters.length = 10 ∧
    (enterGuesses ["w", "e", "b", "s", "i", "z", "x", "q", "a", "f"]
        websiteRound).guessedLetters.length
      ≤ ((enterGuesses ["w", "e", "b", "s", "i", "z", "x", "q", "a", "f"]
          websiteRound).currentWord.toList.toFinset.card - 1) + (maxIncorrectGuesses - 1) ∧
    roundOver (enterGuesses ["w", "e", "b", "s", "i", "z", "x", "q", "a", "f", "g"] websiteRound)
      = true :=
  ⟨initGame_half pageLoad, by decide, by decide, by decide,
    (round_ends_within_bound (1 / 2) pageLoad websiteRound (initGame_half pageLoad)
      ["w", "e", "b", "s", "i", "z", "x", "q", "a", "f"]).2.1 (by decide), by decide⟩

/-- C19: for every state and every accepted guess, each position of the masked word that
showed a letter before the guess shows the same letter after it, and the masked word keeps
its length; an incorrect guess leaves the masked word as it was; a correct guess of the
letter `u` puts `u` at exactly the positions where `currentWord` holds `u` and leaves every
other position as it was, and at least one of those positions showed the placeholder
before. -/
theorem accepted_guess_reveals (s : Game) (input : String) (ha : accepts s input = true) :
    (displayWord (enterGuess input s)).length = (displayWord s).length ∧
    (∀ (i : Nat) (c : Char), (displayWord s).toList[i]? = some c → c ≠ '_' →
      (displayWord (enterGuess input s)).toList[i]? = some c) ∧
    (includes s.currentWord (toUpperCase input) = false →
      displayWord (enterGuess input s) = displayWord s) ∧
    (includes s.currentWord (toUpperCase input) = true →
      ∃ u : Char, toUpperCase input = String.singleton u ∧ u ≠ '_' ∧
        (∀ (i : Nat) (c : Char), s.currentWord.toList[i]? = some c →
          (displayWord (enterGuess input s)).toList[i]?
            = if c = u then some u else (displayWord s).toList[i]?) ∧
        ∃ i : Nat, s.currentWord.toList[i]? = some u ∧
          (displayWord s).toList[i]? = some '_' ∧
          (displayWord (enterGuess input s)).toList[i]? = some u) := by
  obtain ⟨h1, h2⟩ := (accepts_iff s input).1 ha
  obtain ⟨e1, -, e3, -⟩ := enterGuess_accepted input s ha
  obtain ⟨u, hu, huA, huZ⟩ := (matchesAZ_iff _).1 h1
  have hne : u ≠ '_' := by
    rintro rfl
    exact absurd huZ (by decide)
  have hmem : ∀ c : Char, String.singleton c ∈ (enterGuess input s).guessedLetters ↔
      (String.singleton c ∈ s.guessedLetters ∨ c = u) := by
    intro c
    rw [e1, hu, List.mem_append, List.mem_singleton]
    exact or_congr Iff.rfl ⟨fun h => singleton_injective h, fun h => h ▸ rfl⟩
  have hget : ∀ i : Nat, (displayWord (enterGuess input s)).toList[i]? =
      (s.currentWord.toList[i]?).map
        (fun c => if String.singleton c ∈ s.guessedLetters ∨ c = u then c else '_') := by
    intro i
    rw [displayWord_getElem?, e3]
    congr 1
    funext c
    simp only [hmem c]
  have hlen : ∀ t : Game, (displayWord t).length = t.currentWord.length := by
    intro t
    unfold displayWord
    rw [maskLoop_eq]
    exact List.length_map _ _
  refine ⟨by rw [hlen, hlen, e3], ?_, ?_, ?_⟩
  · intro i c hc hcne
    rw [displayWord_getElem?] at hc
    rw [hget]
    cases hw : s.currentWord.toList[i]? with
    | none => rw [hw] at hc; simp at hc
    | some c0 =>
      rw [hw] at hc
      simp only [Option.map_some', Option.some.injEq] at hc ⊢
      by_cases hg : String.singleton c0 ∈ s.guessedLetters
      · rw [if_pos hg] at hc
        rw [if_pos (Or.inl hg)]
        exact hc
      · rw [if_neg hg] at hc
        exact absurd hc.symm hcne
  · intro hinc
    have hnot : u ∉ s.currentWord.toList := by
      intro hm
      have := (includes_singleton s.currentWord u).2 hm
      rw [← hu, hinc] at this
      exact absurd this (by simp)
    unfold displayWord
    rw [e3]
    congr 1
    apply maskLoop_congr
    intro c hc
    rw [hmem c]
    constructor
    · rintro (h | h)
      · exact h
      · exact absurd (h ▸ hc) hnot
    · exact Or.inl
  · intro hinc
    have hin : u ∈ s.currentWord.toList := by
      rw [hu] at hinc
      exact (includes_singleton s.currentWord u).1 hinc
    have hnew : String.singleton u ∉ s.guessedLetters := hu ▸ h2
    refine ⟨u, hu, hne, ?_, ?_⟩
    · intro i c hc
      rw [hget, displayWord_getElem?, hc]
      simp only [Option.map_some']
      by_cases hcu : c = u
      · subst hcu
        simp
      · simp [hcu]
    · obtain ⟨i, hi⟩ := List.getElem?_of_mem hin
      refine ⟨i, hi, ?_, ?_⟩
      · rw [displayWord_getElem?, hi]
        simp [hnew]
      · rw [hget, hi]
        simp

/-- Witness of `accepted_guess_reveals`: in the round of WEBSITE after `w`, the guess `e`
turns the masked word `W______` into `WE____E`. -/
theorem accepted_guess_reveals_witness :
    accepts (enterGuess "w" websiteRound) "e" = true ∧
    displayWord (enterGuess "w" websiteRound) = "W______" ∧
    displayWord (enterGuess "e" (enterGuess "w" websiteRound)) = "WE____E" ∧
    displayWord (enterGuess "z" (enterGuess "w" websiteRound)) = "W______" ∧
    (displayWord (enterGuess "e" (enterGuess "w" websiteRound))).length
      = (displayWord (enterGuess "w" websiteRound)).length :=
  ⟨by decide, by decide, by decide, by decide,
    (accepted_guess_reveals (enterGuess "w" websiteRound) "e" (by decide)).1⟩

/-- C20: for every state and every two inputs `a` and `b`, in particular two distinct
letters, `handleGuess` run on `a` then `b` and run on `b` then `a` leave the same
`incorrectGuesses`, the same masked word, the same set of guessed letters and the same
determination of the round (word fully guessed or not, `incorrectGuesses` at
`maxIncorrectGuesses` or not); in a state reached from `initGame` they also leave the same
controls, the same word shown and the same guesses left. -/
theorem guess_order_irrelevant (s : Game) (a b : String) :
    (enterGuess b (enterGuess a s)).incorrectGuesses
      = (enterGuess a (enterGuess b s)).incorrectGuesses ∧
    displayWord (enterGuess b (enterGuess a s)) = displayWord (enterGuess a (enterGuess b s)) ∧
    (enterGuess b (enterGuess a s)).guessedLetters.toFinset
      = (enterGuess a (enterGuess b s)).guessedLetters.toFinset ∧
    (enterGuess b (enterGuess a s)).guessedLetters.length
      = (enterGuess a (enterGuess b s)).guessedLetters.length ∧
    wordGuessed (enterGuess b (enterGuess a s)) = wordGuessed (enterGuess a (enterGuess b s)) ∧
    roundOver (enterGuess b (enterGuess a s)) = roundOver (enterGuess a (enterGuess b s)) ∧
    (Reachable s →
      (enterGuess b (enterGuess a s)).guessInputDisabled
        = (enterGuess a (enterGuess b s)).guessInputDisabled ∧
      (enterGuess b (enterGuess a s)).guessButtonDisabled
        = (enterGuess a (enterGuess b s)).guessButtonDisabled ∧
      (enterGuess b (enterGuess a s)).resetButtonDisplay
        = (enterGuess a (enterGuess b s)).resetButtonDisplay ∧
      (enterGuess b (enterGuess a s)).wordDisplayText
        = (enterGuess a (enterGuess b s)).wordDisplayText ∧
      (enterGuess b (enterGuess a s)).guessesLeft
        = (enterGuess a (enterGuess b s)).guessesLeft) := by
  obtain ⟨hw, hn, hp⟩ := enterGuess_comm_core a b s
  have hmask : maskLoop (enterGuess b (enterGuess a s)).currentWord
      (enterGuess b (enterGuess a s)).guessedLetters
      = maskLoop (enterGuess a (enterGuess b s)).currentWord
        (enterGuess a (enterGuess b s)).guessedLetters := by
    rw [hw]
    exact maskLoop_congr _ _ _ (fun c _ => hp.mem_iff)
  have hwg : wordGuessed (enterGuess b (enterGuess a s))
      = wordGuessed (enterGuess a (enterGuess b s)) := by
    unfold wordGuessed; rw [hmask]
  have hdw : displayWord (enterGuess b (enterGuess a s))
      = displayWord (enterGuess a (enterGuess b s)) := by
    unfold displayWord; rw [hmask]
  have hro : roundOver (enterGuess b (enterGuess a s))
      = roundOver (enterGuess a (enterGuess b s)) := by
    unfold roundOver; rw [hwg, hn]
  refine ⟨hn, hdw, ?_, hp.length_eq, hwg, hro, ?_⟩
  · ext g
    simp only [List.mem_toFinset]
    exact hp.mem_iff
  · rintro ⟨random, s0, s1, inputs, hinit, rfl⟩
    have i1 := inv_enterGuess b _ (inv_enterGuess a _ (inv_of_initGame random s0 s1 hinit inputs))
    have i2 := inv_enterGuess a _ (inv_enterGuess b _ (inv_of_initGame random s0 s1 hinit inputs))
    have d1 := invDisplay_enterGuess b _
      (invDisplay_enterGuess a _ (invDisplay_of_initGame random s0 s1 hinit inputs))
    have d2 := invDisplay_enterGuess a _
      (invDisplay_enterGuess b _ (invDisplay_of_initGame random s0 s1 hinit inputs))
    refine ⟨by rw [i1.input, i2.input, hro], by rw [i1.button, i2.button, hro],
      by rw [i1.reset, i2.reset, hro], ?_, by rw [d1.left, d2.left, hn]⟩
    rw [d1.display, d2.display, hwg, hn, hw, hdw]

/-- Witness of `guess_order_irrelevant`: the letters `e` and `z` in the round of WEBSITE. -/
theorem guess_order_irrelevant_witness :
    Reachable websiteRound ∧
    (enterGuess "z" (enterGuess "e" websiteRound)).guessedLetters = ["E", "Z"] ∧
    (enterGuess "e" (enterGuess "z" websiteRound)).guessedLetters = ["Z", "E"] ∧
    (enterGuess "z" (enterGuess "e" websiteRound)).incorrectGuesses
      = (enterGuess "e" (enterGuess "z" websiteRound)).incorrectGuesses ∧
    (enterGuess "z" (enterGuess "e" websiteRound)).wordDisplayText
      = (enterGuess "e" (enterGuess "z" websiteRound)).wordDisplayText :=
  ⟨⟨1 / 2, pageLoad, websiteRound, [], initGame_half pageLoad, rfl⟩, by decide, by decide,
    (guess_order_irrelevant websiteRound "e" "z").1,
    ((guess_order_irrelevant websiteRound "e" "z").2.2.2.2.2.2
      ⟨1 / 2, pageLoad, websiteRound, [], initGame_half pageLoad, rfl⟩).2.2.2.1⟩

end WordGuessing
